import Mathlib

/-!
Verification development for the duplicate-detection orchestrator
(`bff` service: `main.go`, `internal/controller/task_controller/task_controller.go`,
`internal/model/task.go`, the sqlc queries of
`internal/repository/postgres/sql/task_schema.sql`, and the converters of
the `taskcontroller` package).

Embedding conventions:
* Go `float64` values are modelled exactly.  Input probabilities are
  decoded from JSON, which cannot encode a non-finite number, so they are
  carried as rationals `ℚ`; the fused scores the intersection loop computes
  can divide by zero, so they live in `GoFloat` — a rational together with
  the IEEE-754 `NaN` and signed infinities — and are compared with the
  IEEE `<` (`goLt`), under which every comparison involving a `NaN` is
  false.  Every constant the comparisons depend on (`0.75`, `1.0`, the
  probabilities used in concrete inputs) is exactly representable in binary
  floating point, so the branch structure of the modelled code is unchanged
  by the exact-rational choice.
* The controller's pagination arguments are `uint64` values truncated with
  `int32(...)` before they reach SQL; `int32Of` models that two's-complement
  truncation.
* Go `int64` identifiers are modelled by `Nat` (the ids are `BIGSERIAL`
  values, always positive, and are only compared for equality).
* JSONB column contents / Kafka message payloads are modelled by the `Blob`
  type, whose constructors are exactly the byte-string shapes that occur in
  the system, together with the observable behaviour of `encoding/json`
  on each shape (see the doc comments on `Blob` and
  `unmarshalKafkaResponse`).
* Go maps (`map[string]float64`) are modelled by association lists with
  last-write-wins insertion (`mapInsert`).  Go's map iteration order is
  unspecified; the model iterates in first-insertion order.  All proved
  properties are stated so that they do not depend on this choice, and all
  counterexamples are chosen so that the Go code misbehaves under *every*
  iteration order.
-/

/-- `model.Copyright` from `internal/model/task.go`:
`{Name string; Probability float64}`. -/
structure Copyright where
  name : String
  probability : ℚ
deriving DecidableEq, Repr

/-- `model.KafkaResponse` from `internal/model/task.go`:
`{TaskID int64 (json "task_id"); Copy []Copyright (json "copyright")}`. -/
structure KafkaResponse where
  taskId : Nat
  copy : List Copyright
deriving DecidableEq, Repr

/-- A JSONB column value / Kafka payload, by the byte-string shapes that
occur in the system.
* `empty`: the SQL `NULL` / zero-length byte slice (a fresh task's
  `audio_copyright` and `video_copyright` columns).
* `copyrightJson c`: the bytes `json.Marshal` produces for a single
  `model.Copyright` value, i.e. an object with keys `Name` and
  `Probability` (this is what the hash fast path of `CreateTask` stores).
* `kafkaRespJson r`: bytes that `json.Unmarshal` decodes into the
  `model.KafkaResponse` value `r` (the raw Kafka result messages the
  collector loops store).
* `malformed s`: any other byte string, which fails to decode as a
  `KafkaResponse`. -/
inductive Blob where
  | empty
  | copyrightJson (c : Copyright)
  | kafkaRespJson (r : KafkaResponse)
  | malformed (s : String)
deriving DecidableEq, Repr

/-- `len(b) != 0` is the check `checkTaskDone` performs on a column value.
A JSON object encoding is always a non-empty byte string; the `NULL`
column reads back as a zero-length slice. -/
def Blob.isEmptyBytes : Blob → Bool
  | .empty => true
  | .copyrightJson _ => false
  | .kafkaRespJson _ => false
  | .malformed s => s.isEmpty

/-- `json.Unmarshal(b, &k)` for `k` a `model.KafkaResponse`, as it behaves
on each byte-string shape:
* a zero-length input is an `unexpected end of JSON input` error;
* the fast path's `Copyright` object decodes *successfully* — Go's
  `encoding/json` silently ignores the unknown keys `Name` and
  `Probability`, leaving `k` at its zero value (`TaskID 0`, `Copy nil`);
* a `KafkaResponse` encoding decodes to the encoded value;
* anything else errors. -/
def unmarshalKafkaResponse : Blob → Option KafkaResponse
  | .empty => none
  | .copyrightJson _ => some { taskId := 0, copy := [] }
  | .kafkaRespJson r => some r
  | .malformed _ => none

/-! ### Go maps as association lists -/

/-- A single Go map assignment `m[k] = v`: overwrite the binding if the key
is present, otherwise add it. -/
def mapInsert (k : String) (v : ℚ) : List (String × ℚ) → List (String × ℚ)
  | [] => [(k, v)]
  | kv :: rest => if kv.1 = k then (kv.1, v) :: rest else kv :: mapInsert k v rest

/-- `videoMap[v.Name] = v.Probability` for each list element in order
(later occurrences of a name overwrite earlier ones, as for a Go map). -/
def buildMap (l : List Copyright) : List (String × ℚ) :=
  l.foldl (fun m c => mapInsert c.name c.probability m) []

/-- Go map lookup `m[k]` (with its `ok` flag as the `Option`). -/
def lookupMap (m : List (String × ℚ)) (k : String) : Option ℚ :=
  (m.find? (fun kv => kv.1 = k)).map (fun kv => kv.2)

/-! ### The fusion engine `isCopyrighted` (main.go) -/

/-- A Go `float64` value as the fusion pipeline can produce it.  The input
probabilities are always finite — they are decoded from JSON, which cannot
encode a non-finite number — and are carried exactly as rationals, but the
fused score `2*(p*q)/(p+q)` divides by zero when `p + q = 0`, producing a
`NaN` (zero numerator) or a signed infinity (nonzero numerator). -/
inductive GoFloat where
  | nan
  | negInf
  | posInf
  | fin (q : ℚ)
deriving DecidableEq, Repr

/-- IEEE-754 `<` on such values: every comparison involving a `NaN` is
false; `-Inf` is below every other value and `+Inf` above. -/
def goLt : GoFloat → GoFloat → Bool
  | .nan, _ => false
  | _, .nan => false
  | .fin x, .fin y => decide (x < y)
  | .negInf, .negInf => false
  | .negInf, _ => true
  | _, .negInf => false
  | .posInf, _ => false
  | .fin _, .posInf => true

/-- The fused score `2 * (videoMap[k] * audioMap[k]) / (videoMap[k] + audioMap[k])`
computed in the intersection loop of `isCopyrighted`, with IEEE-754
division by zero: when `p + q` is exactly zero the produced zero carries a
positive sign (`x + (-x) = +0` in round-to-nearest), so the quotient is a
`NaN` when the numerator is also zero (that is, `p = q = 0`) and an
infinity carrying the numerator's sign otherwise; a nonzero denominator
gives the exact rational quotient. -/
def harmonicMean (p q : ℚ) : GoFloat :=
  if p + q = 0 then
    if 2 * (p * q) = 0 then .nan
    else if 2 * (p * q) < 0 then .negInf
    else .posInf
  else .fin (2 * (p * q) / (p + q))

/-- A `model.Copyright` as it appears in the `finProbs` slice: its
`Probability` field then holds a fused score, which can be non-finite. -/
structure FCopyright where
  name : String
  probability : GoFloat
deriving DecidableEq, Repr

/-- The intersection loop of `isCopyrighted`: every video-map key that is
absent from the audio map is deleted; every surviving key's value is
replaced by the harmonic mean of the two modality probabilities.  (The Go
loop ranges over the map in unspecified order; the result is
order-independent because each key is handled independently.) -/
def intersectFuse (vm am : List (String × ℚ)) : List FCopyright :=
  vm.filterMap fun kv =>
    match lookupMap am kv.1 with
    | some q => some { name := kv.1, probability := harmonicMean kv.2 q }
    | none => none

/-- The sub-threshold removal loop of `isCopyrighted`:

```
for i := range finProbs {
    if finProbs[i].Probability < 0.75 {
        finProbs[i] = finProbs[len(finProbs)-1]
        finProbs[len(finProbs)-1] = model.Copyright{}
        finProbs = finProbs[:len(finProbs)-1]
    }
}
```

`rem` counts the loop iterations still to run: the range clause fixes the
iteration count at the *initial* length of `finProbs`, while the body
shrinks the slice, so the index `i` can run past the end of the current
slice — Go then panics with an index-out-of-range error, modelled as
`none`.  (The write of the zero `Copyright{}` into the last position is
immediately discarded by the reslice to `[:len-1]` and is dropped from the
model.)  The swapped-in last element is *not* re-examined before `i`
advances.  The `finProbs[i].Probability < 0.75` comparison is the IEEE
`goLt`, so a `NaN` score is never removed. -/
def discardLoop : Nat → List FCopyright → Nat → Option (List FCopyright)
  | _, l, 0 => some l
  | i, l, rem + 1 =>
    if hl : i < l.length then
      if goLt (l.get ⟨i, hl⟩).probability (GoFloat.fin (3/4)) = true then
        discardLoop (i + 1)
          ((l.set i (l.get ⟨l.length - 1,
              Nat.sub_lt (Nat.lt_of_le_of_lt (Nat.zero_le i) hl) Nat.one_pos⟩)).take
            (l.length - 1)) rem
      else
        discardLoop (i + 1) l rem
    else
      none

/-- The comparator of `sort.Slice(finProbs, ...)`: IEEE `<` on the fused
scores. -/
def probLt (a b : FCopyright) : Bool := goLt a.probability b.probability

/-- Insert an element into a list sorted by `lt`, before the first strictly
greater element. -/
def insertBy (lt : α → α → Bool) (x : α) : List α → List α
  | [] => [x]
  | y :: ys => if lt x y then x :: y :: ys else y :: insertBy lt x ys

/-- Insertion sort.  `sort.Slice` is an unstable comparison sort whose
behaviour is specified only for a comparator that is a strict weak order
(which IEEE `<` fails to be exactly when a `NaN` is among the values);
any such sort produces a rearrangement of the same multiset in which no
element compares strictly below the head, which is all the code's final
`finProbs[0]` selection depends on. -/
def sortBy (lt : α → α → Bool) : List α → List α
  | [] => []
  | x :: xs => insertBy lt x (sortBy lt xs)

/-- The survivor list of `isCopyrighted`: the fused intersection after the
sub-threshold removal loop (`none` when the loop panics). -/
def survivorsOf (video audio : List Copyright) : Option (List FCopyright) :=
  discardLoop 0 (intersectFuse (buildMap video) (buildMap audio))
    (intersectFuse (buildMap video) (buildMap audio)).length

/-- The final selection of `isCopyrighted`:
`if len(finProbs) == 0 { return "", false }; return finProbs[0].Name, true`,
applied to the sorted survivor list. -/
def headName : List FCopyright → String × Bool
  | [] => ("", false)
  | c :: _ => (c.name, true)

/-- Sort the survivors by ascending fused score, then select the first. -/
def pickLowest (fin : List FCopyright) : String × Bool :=
  headName (sortBy probLt fin)

/-- `isCopyrighted(videoCopyright, audioCopyright)` from main.go.
`none` models a runtime panic of the removal loop; `some (name, dup)`
models the normal return. -/
def isCopyrighted (video audio : List Copyright) : Option (String × Bool) :=
  if video.length = 0 || audio.length = 0 then some ("", false)
  else if (intersectFuse (buildMap video) (buildMap audio)).length = 0 then
    some ("", false)
  else Option.map pickLowest (survivorsOf video audio)

/-! ### The task store (postgres schema `task_schema.sql`) and the
controller operations (`task_controller.go`) -/

/-- The `task_status` enum of the schema:
`('in_progress', 'fail', 'done')`. -/
inductive PgStatus where
  | inProgress
  | fail
  | done
deriving DecidableEq, Repr

/-- `model.TaskStatus` (`internal/model/task.go`): `Done`, `InProgress`,
`Failed`. -/
inductive ModelStatus where
  | done
  | inProgress
  | failed
deriving DecidableEq, Repr

/-- A row of the `task` table.  `audioWritten` / `videoWritten` are history
variables, not schema columns: they record that the corresponding
`UPDATE task SET ..._copyright` statement has run at least once for this
row, which is what the spec's "written at least once" invariant speaks
about. -/
structure PgTask where
  taskId : Nat
  videoName : String
  audioFile : String
  videoFile : String
  previewId : String
  status : PgStatus
  audioCopyright : Blob
  videoCopyright : Blob
  audioWritten : Bool
  videoWritten : Bool
deriving DecidableEq, Repr

instance : Inhabited PgTask :=
  ⟨{ taskId := 0, videoName := "", audioFile := "", videoFile := "",
     previewId := "", status := .inProgress, audioCopyright := .empty,
     videoCopyright := .empty, audioWritten := false, videoWritten := false }⟩

/-- A row of the `origvideo` table: `(video_id TEXT, video_hash TEXT)`. -/
structure OrigVideo where
  videoId : String
  videoHash : String
deriving DecidableEq, Repr

/-- The video/audio analysis channels (Kafka input topics). -/
inductive Modality where
  | video
  | audio
deriving DecidableEq, Repr

/-- The shared mutable state: the two tables, the `BIGSERIAL` counter of
`task_id`, and a log of the analysis requests published to the two input
topics (`published` records the fan-out messages written by
`checkForCopyright`). -/
structure Store where
  tasks : List PgTask
  nextId : Nat
  origvideos : List OrigVideo
  published : List (Nat × Modality)
deriving DecidableEq, Repr

/-- `UPDATE task SET <field> WHERE task_id = $1` touches every row whose
`task_id` matches (the id is in fact unique, see `StoreInv`). -/
def mapTask (id : Nat) (f : PgTask → PgTask) (l : List PgTask) : List PgTask :=
  l.map fun t => if t.taskId = id then f t else t

/-- `SELECT * FROM task WHERE task_id = $1 LIMIT 1` (sqlc `GetTask`). -/
def findTask (l : List PgTask) (id : Nat) : Option PgTask :=
  l.find? fun t => t.taskId = id

/-- The row update of sqlc `UpdateTaskVideoCopyright`. -/
def setVideoCopyright (b : Blob) (t : PgTask) : PgTask :=
  { t with videoCopyright := b, videoWritten := true }

/-- The row update of sqlc `UpdateTaskAudioCopyright`. -/
def setAudioCopyright (b : Blob) (t : PgTask) : PgTask :=
  { t with audioCopyright := b, audioWritten := true }

/-- The row update of sqlc `UpdateTaskStatus`. -/
def setStatus (s : PgStatus) (t : PgTask) : PgTask :=
  { t with status := s }

/-- sqlc `UpdateTaskVideoCopyright`. -/
def updateTaskVideoCopyright (st : Store) (id : Nat) (b : Blob) : Store :=
  { st with tasks := mapTask id (setVideoCopyright b) st.tasks }

/-- sqlc `UpdateTaskAudioCopyright`. -/
def updateTaskAudioCopyright (st : Store) (id : Nat) (b : Blob) : Store :=
  { st with tasks := mapTask id (setAudioCopyright b) st.tasks }

/-- sqlc `UpdateTaskStatus`. -/
def updateTaskStatus (st : Store) (id : Nat) (s : PgStatus) : Store :=
  { st with tasks := mapTask id (setStatus s) st.tasks }

/-- sqlc `CreateTask`: insert a fresh row (both copyright columns `NULL`)
and return it.  `preview_id` is the literal `"aaa"` the controller passes. -/
def insertTask (st : Store) (status : PgStatus) (videoName videoFile audioFile : String) :
    Store × Nat :=
  let row : PgTask :=
    { taskId := st.nextId, videoName := videoName, audioFile := audioFile,
      videoFile := videoFile, previewId := "aaa", status := status,
      audioCopyright := .empty, videoCopyright := .empty,
      audioWritten := false, videoWritten := false }
  ({ st with tasks := st.tasks ++ [row], nextId := st.nextId + 1 }, st.nextId)

/-- sqlc `GetOrigVideosByHash`:
`SELECT * FROM origvideo WHERE video_hash = $1 ORDER BY video_id DESC`.
(The descending text ordering is modelled by Lean's `String` order; only
whether the result is empty, and its first element, are ever used.) -/
def getOrigVideosByHash (st : Store) (h : String) : List OrigVideo :=
  sortBy (fun a b => decide (b.videoId < a.videoId))
    (st.origvideos.filter fun v => v.videoHash = h)

/-- `checkTaskDone` from `handleKafkaInput`: re-read the task; if both
copyright columns are non-empty byte strings, set the status to `done`. -/
def checkTaskDone (st : Store) (id : Nat) : Store :=
  match findTask st.tasks id with
  | none => st
  | some t =>
    if (!t.audioCopyright.isEmptyBytes && !t.videoCopyright.isEmptyBytes) = true then
      updateTaskStatus st id .done
    else st

/-- One iteration of a result-collector loop (`handleKafkaInput`): decode
the message (dropping it on failure), store the *raw message bytes* into
the modality's copyright column of the task the message names, then run
the completion check. -/
def collectorStep (m : Modality) (msg : Blob) (st : Store) : Store :=
  match unmarshalKafkaResponse msg with
  | none => st
  | some k =>
    let st1 := match m with
      | .video => updateTaskVideoCopyright st k.taskId msg
      | .audio => updateTaskAudioCopyright st k.taskId msg
    checkTaskDone st1 k.taskId

/-- `CreateTask` (`task_controller.go`), after the IO prologue (upload,
audio derivation, hashing) has produced the object keys and the content
hash.  A hash hit creates the task directly in `done` state and stores
`json.Marshal` of a *single* `model.Copyright{Name: videos[0].VideoID,
Probability: 1}` into both copyright columns; a miss creates the task
`in_progress` (the fan-out runs asynchronously, see `dispatchStep`). -/
def createTask (st : Store) (hash videoName videoFile audioFile : String) : Store × Nat :=
  match getOrigVideosByHash st hash with
  | [] => insertTask st .inProgress videoName videoFile audioFile
  | v :: _ =>
    let r := insertTask st .done videoName videoFile audioFile
    let blob := Blob.copyrightJson { name := v.videoId, probability := 1 }
    let st2 := updateTaskVideoCopyright r.1 r.2 blob
    (updateTaskAudioCopyright st2 r.2 blob, r.2)

/-- `checkForCopyright`, the goroutine the slow path spawns: re-set the
status to `in_progress`, then publish one analysis request per modality
(audio topic first, then video, as in the Go code). -/
def dispatchStep (st : Store) (id : Nat) : Store :=
  let st1 := updateTaskStatus st id .inProgress
  { st1 with published := st1.published ++ [(id, Modality.audio), (id, Modality.video)] }

/-- The empty store: no tasks yet, ids start at 1 (`BIGSERIAL`), the
`origvideo` table holds the externally maintained references `ov`. -/
def init0 (ov : List OrigVideo) : Store :=
  { tasks := [], nextId := 1, origvideos := ov, published := [] }

/-- States reachable from the empty store by the operations of the core:
`CreateTask` (either path, as one step), the slow path's asynchronous
fan-out, and the two collector loops' update-then-check steps.  The core
never writes `origvideo`. -/
inductive Reachable (ov : List OrigVideo) : Store → Prop where
  | init : Reachable ov (init0 ov)
  | create (hash videoName videoFile audioFile : String) {st : Store} :
      Reachable ov st → Reachable ov (createTask st hash videoName videoFile audioFile).1
  | dispatch (id : Nat) {st : Store} :
      Reachable ov st → Reachable ov (dispatchStep st id)
  | videoMsg (msg : Blob) {st : Store} :
      Reachable ov st → Reachable ov (collectorStep .video msg st)
  | audioMsg (msg : Blob) {st : Store} :
      Reachable ov st → Reachable ov (collectorStep .audio msg st)

/-! ### The converters (`taskToModel`, unnamed file of the
`taskcontroller` package) and the read operations -/

/-- `model.Task` (`internal/model/task.go`), as far as the controller
populates it. -/
structure ModelTask where
  taskId : Nat
  status : ModelStatus
  videoCopyright : List Copyright
  audioCopyright : List Copyright
deriving DecidableEq, Repr

/-- `statusToModel`: the Go switch (its `default` arm, returning `Failed`,
is unreachable on the closed enum). -/
def statusToModel : PgStatus → ModelStatus
  | .done => .done
  | .fail => .failed
  | .inProgress => .inProgress

/-- `taskToModel`: unmarshal each copyright column as a `KafkaResponse`,
substituting the zero struct when unmarshalling fails; the error result is
the constant `nil`. -/
def taskToModel (t : PgTask) : Except String ModelTask :=
  let aud : KafkaResponse :=
    (unmarshalKafkaResponse t.audioCopyright).getD { taskId := 0, copy := [] }
  let vid : KafkaResponse :=
    (unmarshalKafkaResponse t.videoCopyright).getD { taskId := 0, copy := [] }
  Except.ok
    { taskId := t.taskId, status := statusToModel t.status,
      videoCopyright := vid.copy, audioCopyright := aud.copy }

/-- `GetTask` of the controller: a store read that fails only when the row
is absent, then the pure conversion. -/
def getTask (st : Store) (id : Nat) : Except String ModelTask :=
  match findTask st.tasks id with
  | none => Except.error "get task failed"
  | some t => taskToModel t

/-- `taskSliceToModel`: convert each row, propagating the first error. -/
def taskSliceToModel : List PgTask → Except String (List ModelTask)
  | [] => Except.ok []
  | t :: ts =>
    match taskToModel t with
    | Except.error e => Except.error e
    | Except.ok m =>
      match taskSliceToModel ts with
      | Except.error e => Except.error e
      | Except.ok ms => Except.ok (m :: ms)

/-- `SELECT count( * ) FROM task` (sqlc `GetTasksCount`). -/
def getTasksCount (st : Store) : Nat := st.tasks.length

/-- The two's-complement `int32(n)` truncation the controller applies to
its `uint64` pagination arguments: keep the low 32 bits and read them as a
signed 32-bit value. -/
def int32Of (n : Nat) : Int :=
  if n % 2 ^ 32 < 2 ^ 31 then ((n % 2 ^ 32 : Nat) : Int)
  else ((n % 2 ^ 32 : Nat) : Int) - 2 ^ 32

/-- `GetTasks` of the controller.  The sqlc params carry `int32` values, so
the `uint64` arguments are truncated (`Limit: int32(limit), Offset:
int32(offset)`); a negative `LIMIT` or `OFFSET` is rejected by Postgres
(`LIMIT must not be negative`), which the controller surfaces as its
wrapped query error.  Otherwise the page
`SELECT * FROM task ORDER BY task_id ASC LIMIT $1 OFFSET $2` is converted
and paired with the unfiltered row count.  A pure read: no store writes. -/
def getTasks (st : Store) (limit offset : Nat) : Except String (List ModelTask × Nat) :=
  if int32Of limit < 0 ∨ int32Of offset < 0 then Except.error "get tasks failed"
  else
    match taskSliceToModel (((sortBy (fun a b => decide (a.taskId < b.taskId)) st.tasks).drop (int32Of offset).toNat).take (int32Of limit).toNat) with
    | Except.error e => Except.error e
    | Except.ok ts => Except.ok (ts, getTasksCount st)

/-- Per-row invariant: a `done` row has had both copyright columns
written; a non-`NULL` copyright column has been written. -/
def RowInv (t : PgTask) : Prop :=
  (t.status = PgStatus.done → t.videoWritten = true ∧ t.audioWritten = true) ∧
  (t.videoCopyright.isEmptyBytes = false → t.videoWritten = true) ∧
  (t.audioCopyright.isEmptyBytes = false → t.audioWritten = true)

/-- Store invariant: ids below the `BIGSERIAL` counter, ids unique, and
every row satisfies `RowInv`. -/
def StoreInv (st : Store) : Prop :=
  (∀ t ∈ st.tasks, t.taskId < st.nextId) ∧
  st.tasks.Pairwise (fun a b => a.taskId ≠ b.taskId) ∧
  (∀ t ∈ st.tasks, RowInv t)

/-! ### Helper lemmas: insertion sort -/

lemma mem_insertBy {lt : α → α → Bool} {x y : α} {l : List α} :
    y ∈ insertBy lt x l ↔ y = x ∨ y ∈ l := by
  induction l with
  | nil => simp [insertBy]
  | cons z zs ih =>
    simp only [insertBy]
    split
    · simp [List.mem_cons]
    · simp only [List.mem_cons, ih]
      tauto

lemma mem_sortBy {lt : α → α → Bool} {y : α} {l : List α} :
    y ∈ sortBy lt l ↔ y ∈ l := by
  induction l with
  | nil => simp [sortBy]
  | cons x xs ih => simp [sortBy, mem_insertBy, ih]

lemma goLt_irrefl (a : GoFloat) : goLt a a = false := by
  cases a with
  | nan => rfl
  | negInf => rfl
  | posInf => rfl
  | fin q => exact decide_eq_false (lt_irrefl q)

lemma goLt_trans {a b c : GoFloat} (h1 : goLt a b = true) (h2 : goLt b c = true) :
    goLt a c = true := by
  cases a <;> cases b <;> cases c <;>
    first
      | rfl
      | exact Bool.noConfusion h1
      | exact Bool.noConfusion h2
      | exact decide_eq_true (lt_trans (of_decide_eq_true h1) (of_decide_eq_true h2))

/-- No input element compares strictly below the head of the insertion
sort.  (`goLt` is irreflexive and transitive, which is all inserting into
a sorted prefix needs for this; a `NaN`, incomparable with everything,
cannot compare below the head either.) -/
lemma sortBy_probLt_head {l t : List FCopyright} {c : FCopyright}
    (h : sortBy probLt l = c :: t) : ∀ y ∈ l, goLt y.probability c.probability = false := by
  induction l generalizing c t with
  | nil => simp [sortBy] at h
  | cons x xs ih =>
    rw [sortBy] at h
    cases hs : sortBy probLt xs with
    | nil =>
      rw [hs] at h
      rw [insertBy] at h
      injection h with h1 h2
      subst h1
      intro y hy
      rcases List.mem_cons.mp hy with rfl | hy2
      · exact goLt_irrefl _
      · have hmem : y ∈ sortBy probLt xs := mem_sortBy.mpr hy2
        rw [hs] at hmem
        exact absurd hmem (by simp)
    | cons b bs =>
      have ihh := ih hs
      rw [hs] at h
      rw [insertBy] at h
      by_cases hlt : probLt x b = true
      · rw [if_pos hlt] at h
        injection h with h1 h2
        subst h1
        intro y hy
        rcases List.mem_cons.mp hy with rfl | hy2
        · exact goLt_irrefl _
        · cases hyx : goLt y.probability x.probability with
          | false => rfl
          | true =>
            have hxb : goLt x.probability b.probability = true := hlt
            have hyb : goLt y.probability b.probability = true := goLt_trans hyx hxb
            have hfalse := ihh y hy2
            rw [hfalse] at hyb
            exact Bool.noConfusion hyb
      · rw [if_neg hlt] at h
        injection h with h1 h2
        subst h1
        intro y hy
        rcases List.mem_cons.mp hy with rfl | hy2
        · have hxb : probLt y b = false := by
            cases hpb : probLt y b with
            | false => rfl
            | true => exact absurd hpb hlt
          exact hxb
        · exact ihh y hy2

/-! ### Helper lemmas: the Go-map model -/

lemma mem_mapInsert_key {k : String} {v : ℚ} {m : List (String × ℚ)} {kv : String × ℚ}
    (h : kv ∈ mapInsert k v m) : kv.1 = k ∨ kv.1 ∈ m.map Prod.fst := by
  induction m with
  | nil =>
    rw [mapInsert] at h
    simp only [List.mem_singleton] at h
    subst h
    exact Or.inl rfl
  | cons a as ih =>
    rw [mapInsert] at h
    split at h
    · next ha =>
      rcases List.mem_cons.mp h with rfl | h2
      · exact Or.inl ha
      · refine Or.inr ?_
        simp only [List.map_cons]
        exact List.mem_cons_of_mem _ (List.mem_map_of_mem Prod.fst h2)
    · rcases List.mem_cons.mp h with rfl | h2
      · refine Or.inr ?_
        simp only [List.map_cons]
        exact List.mem_cons_self _ _
      · rcases ih h2 with h3 | h3
        · exact Or.inl h3
        · refine Or.inr ?_
          simp only [List.map_cons]
          exact List.mem_cons_of_mem _ h3

lemma keysNodup_mapInsert {k : String} {v : ℚ} {m : List (String × ℚ)}
    (h : m.Pairwise fun a b => a.1 ≠ b.1) :
    (mapInsert k v m).Pairwise fun a b => a.1 ≠ b.1 := by
  induction m with
  | nil => simp [mapInsert]
  | cons a as ih =>
    rcases List.pairwise_cons.mp h with ⟨ha, has⟩
    rw [mapInsert]
    split
    · exact List.Pairwise.cons ha has
    · next hne =>
      refine List.Pairwise.cons ?_ (ih has)
      intro b hb
      rcases mem_mapInsert_key hb with h1 | h1
      · rw [h1]; exact hne
      · rcases List.mem_map.mp h1 with ⟨x, hx, hx1⟩
        rw [← hx1]
        exact ha x hx

lemma keysNodup_buildMap (l : List Copyright) :
    (buildMap l).Pairwise fun a b => a.1 ≠ b.1 := by
  have main : ∀ (l : List Copyright) (m : List (String × ℚ)),
      (m.Pairwise fun a b => a.1 ≠ b.1) →
      ((l.foldl (fun m c => mapInsert c.name c.probability m) m).Pairwise
        fun a b => a.1 ≠ b.1) := by
    intro l
    induction l with
    | nil => exact fun m h => h
    | cons c cs ih => exact fun m hm => ih _ (keysNodup_mapInsert hm)
  exact main l [] (by simp)

lemma lookupMap_of_mem {m : List (String × ℚ)} {kv : String × ℚ}
    (hnd : m.Pairwise fun a b => a.1 ≠ b.1) (h : kv ∈ m) :
    lookupMap m kv.1 = some kv.2 := by
  induction m with
  | nil => cases h
  | cons a as ih =>
    rcases List.pairwise_cons.mp hnd with ⟨ha, has⟩
    rcases List.mem_cons.mp h with rfl | h'
    · rw [lookupMap, List.find?_cons_of_pos _ (by simp)]
      rfl
    · rw [lookupMap, List.find?_cons_of_neg _ (by simpa using ha kv h')]
      exact ih has h'

lemma lookupMap_mem_keys {m : List (String × ℚ)} {k : String} {p : ℚ}
    (h : lookupMap m k = some p) : k ∈ m.map Prod.fst := by
  rw [lookupMap] at h
  cases hf : m.find? (fun kv => kv.1 = k) with
  | none => rw [hf] at h; cases h
  | some kv =>
    have h1 : kv ∈ m := List.mem_of_find?_eq_some hf
    have h2 : kv.1 = k := by simpa using List.find?_some hf
    exact h2 ▸ List.mem_map_of_mem Prod.fst h1

lemma buildMap_keys_sub {l : List Copyright} {k : String}
    (h : k ∈ (buildMap l).map Prod.fst) : k ∈ l.map Copyright.name := by
  have main : ∀ (l : List Copyright) (m : List (String × ℚ)),
      k ∈ ((l.foldl (fun m c => mapInsert c.name c.probability m) m).map Prod.fst) →
      k ∈ l.map Copyright.name ∨ k ∈ m.map Prod.fst := by
    intro l
    induction l with
    | nil => exact fun m h => Or.inr h
    | cons c cs ih =>
      intro m hm
      rcases ih _ hm with h1 | h1
      · exact Or.inl (by simp at h1 ⊢; tauto)
      · rcases List.mem_map.mp h1 with ⟨kv, hkv, hkv1⟩
        rcases mem_mapInsert_key hkv with h2 | h2
        · exact Or.inl (by simp [← hkv1, h2])
        · exact Or.inr (hkv1 ▸ h2)
  rcases main l [] h with h1 | h1
  · exact h1
  · simp at h1

lemma mem_intersectFuse {vm am : List (String × ℚ)} {c : FCopyright}
    (h : c ∈ intersectFuse vm am) :
    ∃ kv ∈ vm, ∃ q, lookupMap am kv.1 = some q ∧
      c = { name := kv.1, probability := harmonicMean kv.2 q } := by
  rw [intersectFuse] at h
  rcases List.mem_filterMap.mp h with ⟨kv, hkv, hf⟩
  cases hq : lookupMap am kv.1 with
  | none => rw [hq] at hf; cases hf
  | some q =>
    rw [hq] at hf
    injection hf with hf2
    exact ⟨kv, hkv, q, hq, hf2.symm⟩

/-! ### Helper lemmas: the removal loop -/

lemma take_set_of_le (l : List α) (i k : Nat) (x : α) (h : k ≤ i) :
    (l.set i x).take k = l.take k := by
  induction l generalizing i k with
  | nil => simp
  | cons a as ih =>
    cases i with
    | zero =>
      have hk : k = 0 := Nat.le_zero.mp h
      subst hk
      simp
    | succ i2 =>
      cases k with
      | zero => simp
      | succ k2 =>
        simp only [List.set_cons_succ, List.take_succ_cons]
        rw [ih i2 k2 (by omega)]

lemma mem_take_get {l : List α} {k : Nat} {c : α} (h : c ∈ l.take k) :
    ∃ j, ∃ hj : j < l.length, j < k ∧ l.get ⟨j, hj⟩ = c := by
  induction l generalizing k with
  | nil => simp at h
  | cons a as ih =>
    cases k with
    | zero => simp at h
    | succ k2 =>
      rw [List.take_succ_cons] at h
      rcases List.mem_cons.mp h with rfl | h2
      · exact ⟨0, by simp, by omega, rfl⟩
      · rcases ih h2 with ⟨j, hj, hjk, hget⟩
        exact ⟨j + 1, by simpa using hj, by omega, by simpa using hget⟩

/-- Once the removal loop has shrunk the slice below the fixed iteration
count, the loop must eventually read past the end: it can only finish in a
panic. -/
lemma discardLoop_none_of_short :
    ∀ (rem i : Nat) (l : List FCopyright), 0 < rem → l.length < i + rem →
      discardLoop i l rem = none := by
  intro rem
  induction rem with
  | zero => intro i l h0 _; exact absurd h0 (lt_irrefl 0)
  | succ r ih =>
    intro i l _ hlen
    rw [discardLoop]
    split
    · next hl =>
      have hr : 0 < r := by omega
      split
      · refine ih _ _ hr ?_
        simp only [List.length_take, List.length_set]
        omega
      · exact ih _ _ hr (by omega)
    · rfl

/-- When the removal loop finishes without a panic, every element of the
final slice scores at least the threshold. -/
lemma discardLoop_some_threshold :
    ∀ (rem i : Nat) (l fin : List FCopyright), l.length ≤ i + rem →
      (∀ j : Nat, (hj : j < l.length) → j < i →
        goLt (l.get ⟨j, hj⟩).probability (GoFloat.fin (3/4)) = false) →
      discardLoop i l rem = some fin →
      ∀ c ∈ fin, goLt c.probability (GoFloat.fin (3/4)) = false := by
  intro rem
  induction rem with
  | zero =>
    intro i l fin hlen hpre h
    rw [discardLoop] at h
    injection h with h1
    subst h1
    intro c hc
    rcases List.mem_iff_get.mp hc with ⟨⟨j, hj⟩, rfl⟩
    exact hpre j hj (by omega)
  | succ r ih =>
    intro i l fin hlen hpre h
    rw [discardLoop] at h
    split at h
    · next hl =>
      split at h
      · rcases Nat.eq_zero_or_pos r with hr | hr
        · subst hr
          rw [discardLoop] at h
          injection h with h1
          subst h1
          intro c hc
          rw [take_set_of_le l i (l.length - 1) _ (by omega)] at hc
          rcases mem_take_get hc with ⟨j, hj, hjk, rfl⟩
          exact hpre j hj (by omega)
        · exfalso
          have hshort : discardLoop (i + 1)
              ((l.set i (l.get ⟨l.length - 1,
                  Nat.sub_lt (Nat.lt_of_le_of_lt (Nat.zero_le i) hl) Nat.one_pos⟩)).take
                (l.length - 1)) r = none := by
            apply discardLoop_none_of_short
            · exact hr
            · simp only [List.length_take, List.length_set]
              omega
          rw [hshort] at h
          cases h
      · next hp =>
        have hge : goLt (l.get ⟨i, hl⟩).probability (GoFloat.fin (3/4)) = false := by
          simpa using hp
        refine ih (i + 1) l fin (by omega) ?_ h
        intro j hj hji
        rcases Nat.lt_succ_iff_lt_or_eq.mp hji with h1 | h1
        · exact hpre j hj h1
        · subst h1
          exact hge
    · cases h

/-- Survivors come from the fused list: the removal loop only drops and
shuffles elements. -/
lemma discardLoop_some_subset :
    ∀ (rem i : Nat) (l fin : List FCopyright),
      discardLoop i l rem = some fin → ∀ c ∈ fin, c ∈ l := by
  intro rem
  induction rem with
  | zero =>
    intro i l fin h
    rw [discardLoop] at h
    injection h with h1
    subst h1
    exact fun c hc => hc
  | succ r ih =>
    intro i l fin h
    rw [discardLoop] at h
    split at h
    · next hl =>
      split at h
      · intro c hc
        have h2 := ih _ _ _ h c hc
        have h3 := List.take_subset _ _ h2
        rcases List.mem_or_eq_of_mem_set h3 with h4 | h4
        · exact h4
        · rw [h4]
          exact List.get_mem l _ _
      · exact fun c hc => ih _ _ _ h c hc
    · cases h

/-! ### Helper lemmas: `isCopyrighted` as a whole -/

lemma survivorsOf_threshold {v a : List Copyright} {fin : List FCopyright}
    (h : survivorsOf v a = some fin) :
    ∀ c ∈ fin, goLt c.probability (GoFloat.fin (3/4)) = false := by
  have h2 : discardLoop 0 (intersectFuse (buildMap v) (buildMap a))
      (intersectFuse (buildMap v) (buildMap a)).length = some fin := h
  exact discardLoop_some_threshold ((intersectFuse (buildMap v) (buildMap a)).length) 0
    (intersectFuse (buildMap v) (buildMap a)) fin (by omega)
    (fun j hj hji => absurd hji (Nat.not_lt_zero j)) h2

lemma survivorsOf_subset {v a : List Copyright} {fin : List FCopyright}
    (h : survivorsOf v a = some fin) :
    ∀ c ∈ fin, c ∈ intersectFuse (buildMap v) (buildMap a) := by
  have h2 : discardLoop 0 (intersectFuse (buildMap v) (buildMap a))
      (intersectFuse (buildMap v) (buildMap a)).length = some fin := h
  exact discardLoop_some_subset ((intersectFuse (buildMap v) (buildMap a)).length) 0
    (intersectFuse (buildMap v) (buildMap a)) fin h2

lemma isCopyrighted_true_elim {v a : List Copyright} {nm : String}
    (h : isCopyrighted v a = some (nm, true)) :
    ∃ fin c rest, survivorsOf v a = some fin ∧ sortBy probLt fin = c :: rest ∧
      c.name = nm := by
  rw [isCopyrighted] at h
  by_cases h0 : (v.length = 0 || a.length = 0) = true
  · rw [if_pos h0] at h
    simp at h
  · rw [if_neg h0] at h
    by_cases h1 : (intersectFuse (buildMap v) (buildMap a)).length = 0
    · rw [if_pos h1] at h
      simp at h
    · rw [if_neg h1] at h
      cases hd : survivorsOf v a with
      | none =>
        rw [hd] at h
        simp at h
      | some fin =>
        rw [hd] at h
        simp only [Option.map_some'] at h
        injection h with h2
        rw [pickLowest] at h2
        cases hs : sortBy probLt fin with
        | nil =>
          rw [hs] at h2
          simp [headName] at h2
        | cons c rest =>
          rw [hs] at h2
          simp only [headName] at h2
          have h3 : c.name = nm := congrArg Prod.fst h2
          exact ⟨fin, c, rest, rfl, hs, h3⟩

lemma lookupMap_single {k : String} {v : ℚ} : lookupMap [(k, v)] k = some v := by
  rw [lookupMap, List.find?_cons_of_pos _ (by simp)]
  rfl

lemma intersectFuse_single {n : String} {p q : ℚ} :
    intersectFuse (buildMap [⟨n, p⟩]) (buildMap [⟨n, q⟩]) =
      [⟨n, harmonicMean p q⟩] := by
  have h1 : buildMap [⟨n, p⟩] = [(n, p)] := rfl
  have h2 : buildMap [⟨n, q⟩] = [(n, q)] := rfl
  rw [h1, h2, intersectFuse]
  simp only [List.filterMap_cons, List.filterMap_nil, lookupMap_single]

lemma discardLoop_single {c : FCopyright} :
    discardLoop 0 [c] 1 =
      if goLt c.probability (GoFloat.fin (3/4)) = true then some [] else some [c] := by
  rw [discardLoop, dif_pos (by simp : (0 : Nat) < [c].length)]
  split
  · next hp =>
    have hp2 : goLt c.probability (GoFloat.fin (3/4)) = true := hp
    rw [if_pos hp2]
    rfl
  · next hp =>
    have hp2 : ¬ goLt c.probability (GoFloat.fin (3/4)) = true := hp
    rw [if_neg hp2]
    rfl

/-! ### Claims about the fusion engine -/

/-- Counterexample to C2 as stated: with video = audio = `[{X, 0.0}]`
(probability `0.0` is a legal decoded value) the fused score is
`2*(0*0)/(0+0) = 0.0/0.0 = NaN`.  `NaN < 0.75` is false, so the removal
loop keeps the entry, and `isCopyrighted` reports `("X", true)` — a
duplicate whose fused score is **not** at least `0.75`: a `NaN` is no
rational at all and compares `≥ 0.75` as false. -/
theorem fusion_threshold_semantics_counterexample :
    isCopyrighted [⟨"X", 0⟩] [⟨"X", 0⟩] = some ("X", true) ∧
    lookupMap (buildMap [(⟨"X", 0⟩ : Copyright)]) "X" = some 0 ∧
    harmonicMean 0 0 = GoFloat.nan ∧
    goLt (harmonicMean 0 0) (GoFloat.fin (3/4)) = false ∧
    ∀ q : ℚ, harmonicMean 0 0 ≠ GoFloat.fin q := by
  have hnan : harmonicMean 0 0 = GoFloat.nan := by with_unfolding_all rfl
  refine ⟨by with_unfolding_all rfl, by with_unfolding_all rfl, hnan,
    by rw [hnan]; rfl, ?_⟩
  intro q h
  rw [hnan] at h
  exact GoFloat.noConfusion h

/-- C2 (amended): the discard comparison is IEEE `<` against `0.75`, so
every name whose fused score compares strictly below `0.75` is discarded
(`0.7499` is not a duplicate), a fused score of exactly `0.75` is kept and
reported as a duplicate, and every survivor passed to the final sort — in
particular the reported name's fused score, the harmonic mean of its two
modality map entries — does **not** compare strictly below `0.75`: it is
at least `0.75` unless it is the `NaN` produced by fusing two zero
probabilities, which also survives because IEEE comparisons with a `NaN`
are false (see the counterexample to the unamended claim). -/
theorem fusion_threshold_semantics :
    (∀ (v a : List Copyright) (nm : String), isCopyrighted v a = some (nm, true) →
      ∃ p q, lookupMap (buildMap v) nm = some p ∧ lookupMap (buildMap a) nm = some q ∧
        goLt (harmonicMean p q) (GoFloat.fin (3/4)) = false) ∧
    (∀ (nm : String) (p q : ℚ), goLt (harmonicMean p q) (GoFloat.fin (3/4)) = false →
      isCopyrighted [⟨nm, p⟩] [⟨nm, q⟩] = some (nm, true)) ∧
    (∀ (nm : String) (p q : ℚ), goLt (harmonicMean p q) (GoFloat.fin (3/4)) = true →
      isCopyrighted [⟨nm, p⟩] [⟨nm, q⟩] = some ("", false)) ∧
    (∀ (v a : List Copyright) (fin : List FCopyright), survivorsOf v a = some fin →
      ∀ c ∈ fin, goLt c.probability (GoFloat.fin (3/4)) = false) := by
  refine ⟨?_, ?_, ?_, fun v a fin h => survivorsOf_threshold h⟩
  · intro v a nm h
    rcases isCopyrighted_true_elim h with ⟨fin, c, rest, hfin, hs, hname⟩
    have hc_fin : c ∈ fin := mem_sortBy.mp (by rw [hs]; exact List.mem_cons_self _ _)
    have hc_fused : c ∈ intersectFuse (buildMap v) (buildMap a) :=
      survivorsOf_subset hfin c hc_fin
    rcases mem_intersectFuse hc_fused with ⟨kv, hkv, q, hq, hceq⟩
    have hp : lookupMap (buildMap v) kv.1 = some kv.2 :=
      lookupMap_of_mem (keysNodup_buildMap v) hkv
    have hth : goLt c.probability (GoFloat.fin (3/4)) = false :=
      survivorsOf_threshold hfin c hc_fin
    refine ⟨kv.2, q, ?_, ?_, ?_⟩
    · rw [← hname, hceq]
      exact hp
    · rw [← hname, hceq]
      exact hq
    · rw [hceq] at hth
      exact hth
  · intro nm p q hge
    rw [isCopyrighted, if_neg (by simp), intersectFuse_single]
    rw [if_neg (by simp), survivorsOf, intersectFuse_single, List.length_singleton]
    rw [discardLoop_single, if_neg (by simp [hge])]
    rfl
  · intro nm p q hlt
    rw [isCopyrighted, if_neg (by simp), intersectFuse_single]
    rw [if_neg (by simp), survivorsOf, intersectFuse_single, List.length_singleton]
    rw [discardLoop_single, if_pos hlt]
    rfl

/-- Witness for C2 (amended): the spec's worked example (fused score of
"A" is `0.847… ≥ 0.75`), the exact-threshold pair (`0.75` each, harmonic
mean `0.75`, reported duplicate), and the spec's `0.7499` boundary pair
(reported not-a-duplicate). -/
theorem fusion_threshold_semantics_witness :
    (∃ p q, lookupMap (buildMap [⟨"A", 9/10⟩, ⟨"B", 1/2⟩]) "A" = some p ∧
        lookupMap (buildMap [⟨"A", 4/5⟩, ⟨"C", 3/5⟩]) "A" = some q ∧
        goLt (harmonicMean p q) (GoFloat.fin (3/4)) = false) ∧
    isCopyrighted [⟨"X", 3/4⟩] [⟨"X", 3/4⟩] = some ("X", true) ∧
    isCopyrighted [⟨"Y", 7499/10000⟩] [⟨"Y", 7499/10000⟩] = some ("", false) :=
  ⟨fusion_threshold_semantics.1 _ _ "A" (by with_unfolding_all rfl),
   fusion_threshold_semantics.2.1 "X" (3/4) (3/4) (by with_unfolding_all decide),
   fusion_threshold_semantics.2.2.1 "Y" (7499/10000) (7499/10000)
     (by with_unfolding_all decide)⟩

/-- C3 counterexample: on video = audio =
`[{A, 0.9}, {B, 0.5}, {C, 0.5}]` the fused score of "A" is `0.9 ≥ 0.75`, so
a survivor above the threshold exists, yet `isCopyrighted` does not return
it: the removal loop panics (two sub-threshold entries cannot both occupy
the final slot, under any map iteration order), modelled as `none`. -/
theorem lowest_survivor_selection_counterexample :
    isCopyrighted [⟨"A", 9/10⟩, ⟨"B", 1/2⟩, ⟨"C", 1/2⟩]
        [⟨"A", 9/10⟩, ⟨"B", 1/2⟩, ⟨"C", 1/2⟩] = none ∧
      harmonicMean (9/10) (9/10) = GoFloat.fin (9/10) ∧
      goLt (harmonicMean (9/10) (9/10)) (GoFloat.fin (3/4)) = false := by
  refine ⟨?_, ?_, ?_⟩
  · with_unfolding_all rfl
  · with_unfolding_all rfl
  · with_unfolding_all rfl

/-- C3 (amended): whenever `isCopyrighted` returns at all with
`isDuplicate = true` (the removal loop can panic instead — see C9), the
reported name belongs to the survivor list and its fused score does not
compare strictly below the `0.75` threshold (under IEEE comparison it is
`≥ 0.75` or the `NaN` of C2's counterexample); and when no survivor's
fused score is a `NaN` — the only case in which the comparator is a strict
weak order, so the only case in which Go's `sort.Slice` has specified
behaviour — no survivor's fused score compares strictly below the reported
one's: the ascending sort places a minimal survivor first. -/
theorem lowest_survivor_selection :
    ∀ (v a : List Copyright) (nm : String), isCopyrighted v a = some (nm, true) →
      ∃ fin c, survivorsOf v a = some fin ∧ c ∈ fin ∧ c.name = nm ∧
        goLt c.probability (GoFloat.fin (3/4)) = false ∧
        ((∀ y ∈ fin, y.probability ≠ GoFloat.nan) →
          ∀ y ∈ fin, goLt y.probability c.probability = false) := by
  intro v a nm h
  rcases isCopyrighted_true_elim h with ⟨fin, c, rest, hfin, hs, hname⟩
  have hc_fin : c ∈ fin := mem_sortBy.mp (by rw [hs]; exact List.mem_cons_self _ _)
  have hmin := sortBy_probLt_head hs
  have hth : goLt c.probability (GoFloat.fin (3/4)) = false :=
    survivorsOf_threshold hfin c hc_fin
  exact ⟨fin, c, hfin, hc_fin, hname, hth, fun _ => hmin⟩

/-- Witness for C3 (amended), on the spec's worked example: the reported
name "A" is the minimal survivor. -/
theorem lowest_survivor_selection_witness :
    ∃ fin c, survivorsOf [⟨"A", 9/10⟩, ⟨"B", 1/2⟩] [⟨"A", 4/5⟩, ⟨"C", 3/5⟩] = some fin ∧
      c ∈ fin ∧ c.name = "A" ∧ goLt c.probability (GoFloat.fin (3/4)) = false ∧
      ((∀ y ∈ fin, y.probability ≠ GoFloat.nan) →
        ∀ y ∈ fin, goLt y.probability c.probability = false) :=
  lowest_survivor_selection _ _ "A" (by with_unfolding_all rfl)

/-- C5: `isCopyrighted` answers "not a duplicate" whenever either input
list is empty (the guard before any map is built) and whenever the two
lists share no name (empty intersection); and a reported match is always a
name present in both modality lists. -/
theorem fusion_empty_or_disjoint :
    (∀ v a : List Copyright, v = [] ∨ a = [] → isCopyrighted v a = some ("", false)) ∧
    (∀ v a : List Copyright,
      (∀ n, n ∈ v.map Copyright.name → n ∉ a.map Copyright.name) →
      isCopyrighted v a = some ("", false)) ∧
    (∀ (v a : List Copyright) (nm : String), isCopyrighted v a = some (nm, true) →
      nm ∈ v.map Copyright.name ∧ nm ∈ a.map Copyright.name) := by
  refine ⟨?_, ?_, ?_⟩
  · intro v a hva
    rw [isCopyrighted]
    rcases hva with rfl | rfl
    · rw [if_pos (by simp)]
    · rw [if_pos (by simp)]
  · intro v a hdisj
    rw [isCopyrighted]
    by_cases h0 : (v.length = 0 || a.length = 0) = true
    · rw [if_pos h0]
    · rw [if_neg h0]
      have hfused : intersectFuse (buildMap v) (buildMap a) = [] := by
        rw [intersectFuse, List.filterMap_eq_nil_iff]
        intro kv hkv
        cases hq : lookupMap (buildMap a) kv.1 with
        | none => simp [hq]
        | some q =>
          exfalso
          have h2 : kv.1 ∈ v.map Copyright.name :=
            buildMap_keys_sub (List.mem_map_of_mem Prod.fst hkv)
          have h4 : kv.1 ∈ a.map Copyright.name :=
            buildMap_keys_sub (lookupMap_mem_keys hq)
          exact hdisj kv.1 h2 h4
      rw [if_pos (by rw [hfused]; rfl)]
  · intro v a nm h
    rcases isCopyrighted_true_elim h with ⟨fin, c, rest, hfin, hs, hname⟩
    have hc_fin : c ∈ fin := mem_sortBy.mp (by rw [hs]; exact List.mem_cons_self _ _)
    have hc_fused : c ∈ intersectFuse (buildMap v) (buildMap a) :=
      survivorsOf_subset hfin c hc_fin
    rcases mem_intersectFuse hc_fused with ⟨kv, hkv, q, hq, hceq⟩
    constructor
    · rw [← hname, hceq]
      exact buildMap_keys_sub (List.mem_map_of_mem Prod.fst hkv)
    · rw [← hname, hceq]
      exact buildMap_keys_sub (lookupMap_mem_keys hq)

/-- Witness for C5: an empty video side, the spec's no-overlap example
(video `[{A, 0.99}]`, audio `[{B, 0.99}]`), and the reported match of the
spec's worked example lying in both name lists. -/
theorem fusion_empty_or_disjoint_witness :
    isCopyrighted [] [⟨"A", 1⟩] = some ("", false) ∧
    isCopyrighted [⟨"A", 99/100⟩] [⟨"B", 99/100⟩] = some ("", false) ∧
    ("A" ∈ ([⟨"A", 9/10⟩, ⟨"B", 1/2⟩] : List Copyright).map Copyright.name ∧
      "A" ∈ ([⟨"A", 4/5⟩, ⟨"C", 3/5⟩] : List Copyright).map Copyright.name) :=
  ⟨fusion_empty_or_disjoint.1 [] [⟨"A", 1⟩] (Or.inl rfl),
   fusion_empty_or_disjoint.2.1 _ _ (by
      intro n hn
      have hn2 : n = "A" := by simpa using hn
      subst hn2
      with_unfolding_all decide),
   fusion_empty_or_disjoint.2.2 _ _ "A" (by with_unfolding_all rfl)⟩

/-- C9 (code bug): the in-place swap-remove loop of `isCopyrighted` indexes
past the end of the shrinking slice.  With video = audio =
`[{A, 0.5}, {B, 0.5}]` both fused scores are `0.5 < 0.75`; the first
removal shrinks `finProbs` to length 1 while the range loop still runs its
second iteration, which reads `finProbs[1]` — an index-out-of-range panic
(under every map iteration order, since two sub-threshold entries cannot
both be the last element).  The model returns `none` for the panic. -/
theorem removal_loop_panic :
    isCopyrighted [⟨"A", 1/2⟩, ⟨"B", 1/2⟩] [⟨"A", 1/2⟩, ⟨"B", 1/2⟩] = none ∧
      survivorsOf [⟨"A", 1/2⟩, ⟨"B", 1/2⟩] [⟨"A", 1/2⟩, ⟨"B", 1/2⟩] = none := by
  constructor
  · with_unfolding_all rfl
  · with_unfolding_all rfl

/-! ### Helper lemmas: store updates -/

lemma findTask_some_taskId {l : List PgTask} {id : Nat} {r : PgTask}
    (h : findTask l id = some r) : r.taskId = id := by
  rw [findTask] at h
  have h3 := List.find?_some h
  simpa using h3

lemma findTask_some_mem {l : List PgTask} {id : Nat} {r : PgTask}
    (h : findTask l id = some r) : r ∈ l := by
  rw [findTask] at h
  exact List.mem_of_find?_eq_some h

lemma findTask_mapTask {id : Nat} {f : PgTask → PgTask} {l : List PgTask}
    (hf : ∀ t, (f t).taskId = t.taskId) (id2 : Nat) :
    findTask (mapTask id f l) id2 =
      (findTask l id2).map fun t => if t.taskId = id then f t else t := by
  induction l with
  | nil => rfl
  | cons a as ih =>
    show findTask ((if a.taskId = id then f a else a) :: mapTask id f as) id2 = _
    by_cases ha2 : a.taskId = id2
    · have hpred : (if a.taskId = id then f a else a).taskId = id2 := by
        by_cases ha : a.taskId = id
        · rw [if_pos ha, hf]
          exact ha2
        · rw [if_neg ha]
          exact ha2
      rw [findTask, List.find?_cons_of_pos _ (by simpa using hpred)]
      rw [findTask, List.find?_cons_of_pos _ (by simpa using ha2)]
      rfl
    · have hpred : ¬ (if a.taskId = id then f a else a).taskId = id2 := by
        by_cases ha : a.taskId = id
        · rw [if_pos ha, hf]
          exact ha2
        · rw [if_neg ha]
          exact ha2
      rw [findTask, List.find?_cons_of_neg _ (by simpa using hpred)]
      rw [findTask, List.find?_cons_of_neg _ (by simpa using ha2)]
      exact ih

lemma findTask_mapTask_found {id : Nat} {f : PgTask → PgTask} {l : List PgTask}
    {row : PgTask} (hf : ∀ t, (f t).taskId = t.taskId)
    (h : findTask l id = some row) :
    findTask (mapTask id f l) id = some (f row) := by
  rw [findTask_mapTask hf id, h, Option.map_some', if_pos (findTask_some_taskId h)]

lemma findTask_mapTask_none {id id2 : Nat} {f : PgTask → PgTask} {l : List PgTask}
    (hf : ∀ t, (f t).taskId = t.taskId) (h : findTask l id2 = none) :
    findTask (mapTask id f l) id2 = none := by
  rw [findTask_mapTask hf id2, h]
  rfl

lemma mapTask_mapTask {id : Nat} {f g : PgTask → PgTask} {l : List PgTask}
    (hg : ∀ t, (g t).taskId = t.taskId) :
    mapTask id f (mapTask id g l) = mapTask id (fun t => f (g t)) l := by
  rw [mapTask, mapTask, mapTask, List.map_map]
  congr 1
  funext t
  by_cases ht : t.taskId = id
  · simp [Function.comp, ht, hg]
  · simp [Function.comp, ht]

lemma mapTask_congr {id : Nat} {f g : PgTask → PgTask} (h : ∀ t, f t = g t)
    (l : List PgTask) : mapTask id f l = mapTask id g l := by
  rw [mapTask, mapTask]
  apply List.map_congr_left
  intro t _
  by_cases ht : t.taskId = id
  · rw [if_pos ht, if_pos ht, h]
  · rw [if_neg ht, if_neg ht]

lemma mapTask_of_findTask_none {id : Nat} {f : PgTask → PgTask} {l : List PgTask}
    (h : findTask l id = none) : mapTask id f l = l := by
  induction l with
  | nil => rfl
  | cons a as ih =>
    by_cases ha : a.taskId = id
    · exfalso
      rw [findTask, List.find?_cons_of_pos _ (by simpa using ha)] at h
      cases h
    · rw [findTask, List.find?_cons_of_neg _ (by simpa using ha)] at h
      show (if a.taskId = id then f a else a) :: mapTask id f as = a :: as
      rw [if_neg ha, ih h]

lemma checkTaskDone_found {st : Store} {id : Nat} {r : PgTask}
    (h : findTask st.tasks id = some r) :
    checkTaskDone st id =
      if (!r.audioCopyright.isEmptyBytes && !r.videoCopyright.isEmptyBytes) = true
      then updateTaskStatus st id PgStatus.done else st := by
  rw [checkTaskDone, h]

lemma checkTaskDone_notfound {st : Store} {id : Nat}
    (h : findTask st.tasks id = none) : checkTaskDone st id = st := by
  rw [checkTaskDone, h]

lemma collectorStep_drop {m : Modality} {b : Blob}
    (hu : unmarshalKafkaResponse b = none) (st : Store) :
    collectorStep m b st = st := by
  rw [collectorStep, hu]

lemma collectorStep_video_eq {b : Blob} {k : KafkaResponse}
    (hu : unmarshalKafkaResponse b = some k) (st : Store) :
    collectorStep .video b st =
      checkTaskDone { st with tasks := mapTask k.taskId (setVideoCopyright b) st.tasks } k.taskId := by
  rw [collectorStep, hu]
  rfl

lemma collectorStep_audio_eq {b : Blob} {k : KafkaResponse}
    (hu : unmarshalKafkaResponse b = some k) (st : Store) :
    collectorStep .audio b st =
      checkTaskDone { st with tasks := mapTask k.taskId (setAudioCopyright b) st.tasks } k.taskId := by
  rw [collectorStep, hu]
  rfl

/-- Applying the same modality write twice and re-running the completion
check after each write changes nothing after the first application: the
column write is idempotent (the same value is re-written) and the
completion check's condition is unchanged. -/
lemma check_after_same_update (f : PgTask → PgTask)
    (hid : ∀ t, (f t).taskId = t.taskId)
    (hidem : ∀ t, f (f t) = f t)
    (hstat : ∀ s t, f (setStatus s t) = setStatus s (f t))
    (hba : ∀ s t, (setStatus s (f t)).audioCopyright = (f t).audioCopyright)
    (hbv : ∀ s t, (setStatus s (f t)).videoCopyright = (f t).videoCopyright)
    (id : Nat) (st : Store) :
    checkTaskDone { (checkTaskDone { st with tasks := mapTask id f st.tasks } id) with tasks := mapTask id f (checkTaskDone { st with tasks := mapTask id f st.tasks } id).tasks } id =
    checkTaskDone { st with tasks := mapTask id f st.tasks } id := by
  cases hfr : findTask st.tasks id with
  | none =>
    have hA : findTask ({ st with tasks := mapTask id f st.tasks } : Store).tasks id = none :=
      findTask_mapTask_none hid hfr
    have hC : checkTaskDone { st with tasks := mapTask id f st.tasks } id =
        { st with tasks := mapTask id f st.tasks } := checkTaskDone_notfound hA
    rw [hC]
    have h2 : mapTask id f ({ st with tasks := mapTask id f st.tasks } : Store).tasks =
        mapTask id f st.tasks := by
      show mapTask id f (mapTask id f st.tasks) = mapTask id f st.tasks
      rw [mapTask_mapTask hid]
      exact mapTask_congr hidem _
    rw [h2]
    exact hC
  | some r =>
    have hA : findTask ({ st with tasks := mapTask id f st.tasks } : Store).tasks id =
        some (f r) := findTask_mapTask_found hid hfr
    have hgid : ∀ t, (setStatus PgStatus.done (f t)).taskId = t.taskId := by
      intro t
      show (f t).taskId = t.taskId
      exact hid t
    by_cases hcond :
        (!(f r).audioCopyright.isEmptyBytes && !(f r).videoCopyright.isEmptyBytes) = true
    · have hC : checkTaskDone { st with tasks := mapTask id f st.tasks } id =
          { st with tasks := mapTask id (fun t => setStatus PgStatus.done (f t)) st.tasks } := by
        rw [checkTaskDone_found hA, if_pos hcond, updateTaskStatus]
        show ({ st with tasks := mapTask id (setStatus PgStatus.done) (mapTask id f st.tasks) } : Store) = _
        rw [mapTask_mapTask hid]
      rw [hC]
      have h2 : mapTask id f ({ st with tasks := mapTask id (fun t => setStatus PgStatus.done (f t)) st.tasks } : Store).tasks =
          mapTask id (fun t => setStatus PgStatus.done (f t)) st.tasks := by
        show mapTask id f (mapTask id (fun t => setStatus PgStatus.done (f t)) st.tasks) = _
        rw [mapTask_mapTask hgid]
        apply mapTask_congr
        intro t
        show f (setStatus PgStatus.done (f t)) = setStatus PgStatus.done (f t)
        rw [hstat, hidem]
      rw [h2]
      have hB : findTask ({ st with tasks := mapTask id (fun t => setStatus PgStatus.done (f t)) st.tasks } : Store).tasks id =
          some (setStatus PgStatus.done (f r)) := findTask_mapTask_found hgid hfr
      rw [checkTaskDone_found hB]
      have hcond2 : (!(setStatus PgStatus.done (f r)).audioCopyright.isEmptyBytes &&
          !(setStatus PgStatus.done (f r)).videoCopyright.isEmptyBytes) = true := by
        rw [hba, hbv]
        exact hcond
      rw [if_pos hcond2, updateTaskStatus]
      show ({ st with tasks := mapTask id (setStatus PgStatus.done) (mapTask id (fun t => setStatus PgStatus.done (f t)) st.tasks) } : Store) = _
      rw [mapTask_mapTask hgid]
      exact congrArg (fun x => ({ st with tasks := x } : Store))
        (mapTask_congr (fun t => rfl) st.tasks)
    · have hC : checkTaskDone { st with tasks := mapTask id f st.tasks } id =
          { st with tasks := mapTask id f st.tasks } := by
        rw [checkTaskDone_found hA, if_neg hcond]
      rw [hC]
      have h2 : mapTask id f ({ st with tasks := mapTask id f st.tasks } : Store).tasks =
          mapTask id f st.tasks := by
        show mapTask id f (mapTask id f st.tasks) = mapTask id f st.tasks
        rw [mapTask_mapTask hid]
        exact mapTask_congr hidem _
      rw [h2]
      exact hC

/-- C7: one collector update-and-completion-check step is idempotent — a
redelivered `AnalysisResult` (same task id, same candidate bytes, same
modality) applied a second time leaves the task's candidate columns and
status exactly as they were after the first application (for every store,
message, and modality; undecodable messages are dropped both times). -/
theorem collector_idempotent :
    ∀ (m : Modality) (msg : Blob) (st : Store),
      collectorStep m msg (collectorStep m msg st) = collectorStep m msg st := by
  intro m msg st
  cases hu : unmarshalKafkaResponse msg with
  | none =>
    rw [collectorStep_drop hu, collectorStep_drop hu]
  | some k =>
    cases m with
    | video =>
      rw [collectorStep_video_eq hu st]
      rw [collectorStep_video_eq hu]
      exact check_after_same_update (setVideoCopyright msg) (fun t => rfl) (fun t => rfl)
        (fun s t => rfl) (fun s t => rfl) (fun s t => rfl) k.taskId st
    | audio =>
      rw [collectorStep_audio_eq hu st]
      rw [collectorStep_audio_eq hu]
      exact check_after_same_update (setAudioCopyright msg) (fun t => rfl) (fun t => rfl)
        (fun s t => rfl) (fun s t => rfl) (fun s t => rfl) k.taskId st

lemma mapTask_comp_fun {id : Nat} (f g : PgTask → PgTask) (l : List PgTask)
    (hg : ∀ t, (g t).taskId = t.taskId) :
    mapTask id f (mapTask id g l) = mapTask id (fun t => f (g t)) l :=
  mapTask_mapTask hg

/-- Applying a video result then an audio result to a fresh task: the video
write alone does not complete the task (the audio column is still empty),
and the audio write then completes it. -/
lemma video_then_audio {st : Store} {id : Nat} {row : PgTask} {b1 b2 : Blob}
    (hrow : findTask st.tasks id = some row)
    (_hv : row.videoCopyright = Blob.empty)
    (ha : row.audioCopyright = Blob.empty)
    (hb1 : b1.isEmptyBytes = false) (hb2 : b2.isEmptyBytes = false) :
    checkTaskDone { (checkTaskDone { st with tasks := mapTask id (setVideoCopyright b1) st.tasks } id) with tasks := mapTask id (setAudioCopyright b2) (checkTaskDone { st with tasks := mapTask id (setVideoCopyright b1) st.tasks } id).tasks } id =
      { st with tasks := mapTask id (fun t => setStatus PgStatus.done (setAudioCopyright b2 (setVideoCopyright b1 t))) st.tasks } := by
  have hA1 : findTask ({ st with tasks := mapTask id (setVideoCopyright b1) st.tasks } : Store).tasks id = some (setVideoCopyright b1 row) :=
    findTask_mapTask_found (fun t => rfl) hrow
  have hcond1 : ¬ (!(setVideoCopyright b1 row).audioCopyright.isEmptyBytes && !(setVideoCopyright b1 row).videoCopyright.isEmptyBytes) = true := by
    show ¬ (!row.audioCopyright.isEmptyBytes && !b1.isEmptyBytes) = true
    rw [ha]
    simp [Blob.isEmptyBytes]
  have hC1 : checkTaskDone { st with tasks := mapTask id (setVideoCopyright b1) st.tasks } id = { st with tasks := mapTask id (setVideoCopyright b1) st.tasks } := by
    rw [checkTaskDone_found hA1, if_neg hcond1]
  rw [hC1]
  have h2 : mapTask id (setAudioCopyright b2) ({ st with tasks := mapTask id (setVideoCopyright b1) st.tasks } : Store).tasks = mapTask id (fun t => setAudioCopyright b2 (setVideoCopyright b1 t)) st.tasks := by
    show mapTask id (setAudioCopyright b2) (mapTask id (setVideoCopyright b1) st.tasks) = _
    rw [mapTask_comp_fun (setAudioCopyright b2) (setVideoCopyright b1) st.tasks (fun t => rfl)]
  rw [h2]
  show checkTaskDone { st with tasks := mapTask id (fun t => setAudioCopyright b2 (setVideoCopyright b1 t)) st.tasks } id = _
  have hA2 : findTask ({ st with tasks := mapTask id (fun t => setAudioCopyright b2 (setVideoCopyright b1 t)) st.tasks } : Store).tasks id = some (setAudioCopyright b2 (setVideoCopyright b1 row)) :=
    findTask_mapTask_found (fun t => rfl) hrow
  rw [checkTaskDone_found hA2]
  have hcond2 : (!(setAudioCopyright b2 (setVideoCopyright b1 row)).audioCopyright.isEmptyBytes && !(setAudioCopyright b2 (setVideoCopyright b1 row)).videoCopyright.isEmptyBytes) = true := by
    show (!b2.isEmptyBytes && !b1.isEmptyBytes) = true
    rw [hb1, hb2]
    rfl
  rw [if_pos hcond2, updateTaskStatus]
  show ({ st with tasks := mapTask id (setStatus PgStatus.done) (mapTask id (fun t => setAudioCopyright b2 (setVideoCopyright b1 t)) st.tasks) } : Store) = _
  rw [mapTask_comp_fun (setStatus PgStatus.done) (fun t => setAudioCopyright b2 (setVideoCopyright b1 t)) st.tasks (fun t => rfl)]

/-- The mirror image of `video_then_audio`: audio result first, then the
video result. -/
lemma audio_then_video {st : Store} {id : Nat} {row : PgTask} {b1 b2 : Blob}
    (hrow : findTask st.tasks id = some row)
    (hv : row.videoCopyright = Blob.empty)
    (_ha : row.audioCopyright = Blob.empty)
    (hb1 : b1.isEmptyBytes = false) (hb2 : b2.isEmptyBytes = false) :
    checkTaskDone { (checkTaskDone { st with tasks := mapTask id (setAudioCopyright b2) st.tasks } id) with tasks := mapTask id (setVideoCopyright b1) (checkTaskDone { st with tasks := mapTask id (setAudioCopyright b2) st.tasks } id).tasks } id =
      { st with tasks := mapTask id (fun t => setStatus PgStatus.done (setVideoCopyright b1 (setAudioCopyright b2 t))) st.tasks } := by
  have hA1 : findTask ({ st with tasks := mapTask id (setAudioCopyright b2) st.tasks } : Store).tasks id = some (setAudioCopyright b2 row) :=
    findTask_mapTask_found (fun t => rfl) hrow
  have hcond1 : ¬ (!(setAudioCopyright b2 row).audioCopyright.isEmptyBytes && !(setAudioCopyright b2 row).videoCopyright.isEmptyBytes) = true := by
    show ¬ (!b2.isEmptyBytes && !row.videoCopyright.isEmptyBytes) = true
    rw [hv, hb2]
    simp [Blob.isEmptyBytes]
  have hC1 : checkTaskDone { st with tasks := mapTask id (setAudioCopyright b2) st.tasks } id = { st with tasks := mapTask id (setAudioCopyright b2) st.tasks } := by
    rw [checkTaskDone_found hA1, if_neg hcond1]
  rw [hC1]
  have h2 : mapTask id (setVideoCopyright b1) ({ st with tasks := mapTask id (setAudioCopyright b2) st.tasks } : Store).tasks = mapTask id (fun t => setVideoCopyright b1 (setAudioCopyright b2 t)) st.tasks := by
    show mapTask id (setVideoCopyright b1) (mapTask id (setAudioCopyright b2) st.tasks) = _
    rw [mapTask_comp_fun (setVideoCopyright b1) (setAudioCopyright b2) st.tasks (fun t => rfl)]
  rw [h2]
  show checkTaskDone { st with tasks := mapTask id (fun t => setVideoCopyright b1 (setAudioCopyright b2 t)) st.tasks } id = _
  have hA2 : findTask ({ st with tasks := mapTask id (fun t => setVideoCopyright b1 (setAudioCopyright b2 t)) st.tasks } : Store).tasks id = some (setVideoCopyright b1 (setAudioCopyright b2 row)) :=
    findTask_mapTask_found (fun t => rfl) hrow
  rw [checkTaskDone_found hA2]
  have hcond2 : (!(setVideoCopyright b1 (setAudioCopyright b2 row)).audioCopyright.isEmptyBytes && !(setVideoCopyright b1 (setAudioCopyright b2 row)).videoCopyright.isEmptyBytes) = true := by
    show (!b2.isEmptyBytes && !b1.isEmptyBytes) = true
    rw [hb1, hb2]
    rfl
  rw [if_pos hcond2, updateTaskStatus]
  show ({ st with tasks := mapTask id (setStatus PgStatus.done) (mapTask id (fun t => setVideoCopyright b1 (setAudioCopyright b2 t)) st.tasks) } : Store) = _
  rw [mapTask_comp_fun (setStatus PgStatus.done) (fun t => setVideoCopyright b1 (setAudioCopyright b2 t)) st.tasks (fun t => rfl)]

/-- C6: for a fresh `in_progress` task (both copyright columns `NULL`),
applying the video result's update-and-completion-check then the audio
result's, or the audio's then the video's, produces the *same* final store;
in it the task is `done`, its video column holds the video message's bytes
and its audio column the audio message's bytes. -/
theorem collector_order_independence :
    ∀ (st : Store) (id : Nat) (row : PgTask) (l1 l2 : List Copyright),
      findTask st.tasks id = some row →
      row.status = PgStatus.inProgress →
      row.videoCopyright = Blob.empty →
      row.audioCopyright = Blob.empty →
      (collectorStep .audio (.kafkaRespJson ⟨id, l2⟩) (collectorStep .video (.kafkaRespJson ⟨id, l1⟩) st) =
        collectorStep .video (.kafkaRespJson ⟨id, l1⟩) (collectorStep .audio (.kafkaRespJson ⟨id, l2⟩) st)) ∧
      ∃ fr, findTask (collectorStep .audio (.kafkaRespJson ⟨id, l2⟩) (collectorStep .video (.kafkaRespJson ⟨id, l1⟩) st)).tasks id = some fr ∧
        fr.status = PgStatus.done ∧ fr.videoCopyright = .kafkaRespJson ⟨id, l1⟩ ∧
        fr.audioCopyright = .kafkaRespJson ⟨id, l2⟩ := by
  intro st id row l1 l2 hrow hst hv ha
  have hu1 : unmarshalKafkaResponse (.kafkaRespJson ⟨id, l1⟩) = some ⟨id, l1⟩ := rfl
  have hu2 : unmarshalKafkaResponse (.kafkaRespJson ⟨id, l2⟩) = some ⟨id, l2⟩ := rfl
  have hb1 : (Blob.kafkaRespJson ⟨id, l1⟩).isEmptyBytes = false := rfl
  have hb2 : (Blob.kafkaRespJson ⟨id, l2⟩).isEmptyBytes = false := rfl
  have hVfirst : collectorStep .audio (.kafkaRespJson ⟨id, l2⟩) (collectorStep .video (.kafkaRespJson ⟨id, l1⟩) st) =
      { st with tasks := mapTask id (fun t => setStatus PgStatus.done (setAudioCopyright (.kafkaRespJson ⟨id, l2⟩) (setVideoCopyright (.kafkaRespJson ⟨id, l1⟩) t))) st.tasks } := by
    rw [collectorStep_video_eq hu1 st, collectorStep_audio_eq hu2]
    show checkTaskDone { (checkTaskDone { st with tasks := mapTask id (setVideoCopyright (.kafkaRespJson ⟨id, l1⟩)) st.tasks } id) with tasks := mapTask id (setAudioCopyright (.kafkaRespJson ⟨id, l2⟩)) (checkTaskDone { st with tasks := mapTask id (setVideoCopyright (.kafkaRespJson ⟨id, l1⟩)) st.tasks } id).tasks } id = _
    exact video_then_audio hrow hv ha hb1 hb2
  have hAfirst : collectorStep .video (.kafkaRespJson ⟨id, l1⟩) (collectorStep .audio (.kafkaRespJson ⟨id, l2⟩) st) =
      { st with tasks := mapTask id (fun t => setStatus PgStatus.done (setVideoCopyright (.kafkaRespJson ⟨id, l1⟩) (setAudioCopyright (.kafkaRespJson ⟨id, l2⟩) t))) st.tasks } := by
    rw [collectorStep_audio_eq hu2 st, collectorStep_video_eq hu1]
    show checkTaskDone { (checkTaskDone { st with tasks := mapTask id (setAudioCopyright (.kafkaRespJson ⟨id, l2⟩)) st.tasks } id) with tasks := mapTask id (setVideoCopyright (.kafkaRespJson ⟨id, l1⟩)) (checkTaskDone { st with tasks := mapTask id (setAudioCopyright (.kafkaRespJson ⟨id, l2⟩)) st.tasks } id).tasks } id = _
    exact audio_then_video hrow hv ha hb1 hb2
  constructor
  · rw [hVfirst, hAfirst]
    exact congrArg (fun x => ({ st with tasks := x } : Store))
      (mapTask_congr (fun t => rfl) st.tasks)
  · rw [hVfirst]
    refine ⟨setStatus PgStatus.done (setAudioCopyright (.kafkaRespJson ⟨id, l2⟩) (setVideoCopyright (.kafkaRespJson ⟨id, l1⟩) row)), ?_, rfl, rfl, rfl⟩
    exact findTask_mapTask_found (fun t => rfl) hrow

/-- Witness for C6: a concrete fresh task created by the slow path, with
one video and one audio result applied in both orders. -/
theorem collector_order_independence_witness :
    (collectorStep .audio (.kafkaRespJson ⟨1, [⟨"A", 4/5⟩]⟩) (collectorStep .video (.kafkaRespJson ⟨1, [⟨"A", 9/10⟩]⟩) (createTask (init0 []) "h" "vid" "v.mp4" "a.wav").1) =
      collectorStep .video (.kafkaRespJson ⟨1, [⟨"A", 9/10⟩]⟩) (collectorStep .audio (.kafkaRespJson ⟨1, [⟨"A", 4/5⟩]⟩) (createTask (init0 []) "h" "vid" "v.mp4" "a.wav").1)) ∧
    ∃ fr, findTask (collectorStep .audio (.kafkaRespJson ⟨1, [⟨"A", 4/5⟩]⟩) (collectorStep .video (.kafkaRespJson ⟨1, [⟨"A", 9/10⟩]⟩) (createTask (init0 []) "h" "vid" "v.mp4" "a.wav").1)).tasks 1 = some fr ∧
      fr.status = PgStatus.done ∧ fr.videoCopyright = .kafkaRespJson ⟨1, [⟨"A", 9/10⟩]⟩ ∧
      fr.audioCopyright = .kafkaRespJson ⟨1, [⟨"A", 4/5⟩]⟩ :=
  collector_order_independence _ 1
    { taskId := 1, videoName := "vid", audioFile := "a.wav", videoFile := "v.mp4",
      previewId := "aaa", status := .inProgress, audioCopyright := .empty,
      videoCopyright := .empty, audioWritten := false, videoWritten := false }
    [⟨"A", 9/10⟩] [⟨"A", 4/5⟩] (by with_unfolding_all rfl) rfl rfl rfl

/-! ### The `done`-implies-written invariant (C4) -/

lemma findTask_unique {l : List PgTask} (hpw : l.Pairwise fun a b => a.taskId ≠ b.taskId)
    {id : Nat} {r : PgTask} (h : findTask l id = some r) :
    ∀ x ∈ l, x.taskId = id → x = r := by
  induction l with
  | nil => intro x hx; cases hx
  | cons a as ih =>
    rcases List.pairwise_cons.mp hpw with ⟨ha, has⟩
    by_cases hid : a.taskId = id
    · rw [findTask, List.find?_cons_of_pos _ (by simpa using hid)] at h
      injection h with h1
      subst h1
      intro x hx hxid
      rcases List.mem_cons.mp hx with rfl | hx2
      · rfl
      · exact absurd (hid.trans hxid.symm) (ha x hx2)
    · rw [findTask, List.find?_cons_of_neg _ (by simpa using hid)] at h
      intro x hx hxid
      rcases List.mem_cons.mp hx with rfl | hx2
      · exact absurd hxid hid
      · exact ih has h x hx2 hxid

lemma storeInv_tasks_append {st : Store} (h : StoreInv st) (row : PgTask)
    (hid : row.taskId = st.nextId) (hrowinv : RowInv row) :
    StoreInv { st with tasks := st.tasks ++ [row], nextId := st.nextId + 1 } := by
  obtain ⟨hb, hpw, hinv⟩ := h
  refine ⟨?_, ?_, ?_⟩
  · intro t ht
    rcases List.mem_append.mp ht with h1 | h1
    · exact Nat.lt_succ_of_lt (hb t h1)
    · rcases List.mem_singleton.mp h1 with rfl
      rw [hid]
      exact Nat.lt_succ_self _
  · rw [List.pairwise_append]
    refine ⟨hpw, List.pairwise_singleton _ _, ?_⟩
    intro a ha b hb2
    rcases List.mem_singleton.mp hb2 with rfl
    rw [hid]
    exact Nat.ne_of_lt (hb a ha)
  · intro t ht
    rcases List.mem_append.mp ht with h1 | h1
    · exact hinv t h1
    · rcases List.mem_singleton.mp h1 with rfl
      exact hrowinv

lemma storeInv_mapTask {st : Store} (h : StoreInv st) (id : Nat) (f : PgTask → PgTask)
    (hid : ∀ t, (f t).taskId = t.taskId)
    (hrow : ∀ t ∈ st.tasks, t.taskId = id → RowInv t → RowInv (f t)) :
    StoreInv { st with tasks := mapTask id f st.tasks } := by
  obtain ⟨hb, hpw, hinv⟩ := h
  have gid : ∀ t : PgTask, ((fun t => if t.taskId = id then f t else t) t).taskId = t.taskId := by
    intro t
    by_cases ht : t.taskId = id
    · show (if t.taskId = id then f t else t).taskId = t.taskId
      rw [if_pos ht, hid]
    · show (if t.taskId = id then f t else t).taskId = t.taskId
      rw [if_neg ht]
  refine ⟨?_, ?_, ?_⟩
  · intro t ht
    rw [mapTask] at ht
    rcases List.mem_map.mp ht with ⟨x, hx, rfl⟩
    rw [gid]
    exact hb x hx
  · rw [mapTask]
    exact List.Pairwise.map _ (fun a b hne => by rw [gid, gid]; exact hne) hpw
  · intro t ht
    rw [mapTask] at ht
    rcases List.mem_map.mp ht with ⟨x, hx, rfl⟩
    by_cases hxid : x.taskId = id
    · show RowInv (if x.taskId = id then f x else x)
      rw [if_pos hxid]
      exact hrow x hx hxid (hinv x hx)
    · show RowInv (if x.taskId = id then f x else x)
      rw [if_neg hxid]
      exact hinv x hx

lemma storeInv_checkTaskDone {st : Store} (h : StoreInv st) (id : Nat) :
    StoreInv (checkTaskDone st id) := by
  cases hfr : findTask st.tasks id with
  | none =>
    rw [checkTaskDone_notfound hfr]
    exact h
  | some r =>
    rw [checkTaskDone_found hfr]
    by_cases hcond :
        (!r.audioCopyright.isEmptyBytes && !r.videoCopyright.isEmptyBytes) = true
    · rw [if_pos hcond, updateTaskStatus]
      have hblobs : r.audioCopyright.isEmptyBytes = false ∧
          r.videoCopyright.isEmptyBytes = false := by
        constructor
        · cases hcase : r.audioCopyright.isEmptyBytes
          · rfl
          · rw [hcase] at hcond
            simp at hcond
        · cases hcase : r.videoCopyright.isEmptyBytes
          · rfl
          · rw [hcase] at hcond
            simp at hcond
      apply storeInv_mapTask h id (setStatus PgStatus.done) (fun t => rfl)
      intro t ht htid hrowinv
      have ht_r : t = r := findTask_unique h.2.1 hfr t ht htid
      subst ht_r
      refine ⟨fun _ => ⟨?_, ?_⟩, fun hvv => hrowinv.2.1 hvv, fun haa => hrowinv.2.2 haa⟩
      · exact hrowinv.2.1 hblobs.2
      · exact hrowinv.2.2 hblobs.1
    · rw [if_neg hcond]
      exact h

lemma mapTask_eq_self {id : Nat} {f : PgTask → PgTask} {l : List PgTask}
    (h : ∀ t ∈ l, t.taskId ≠ id) : mapTask id f l = l := by
  induction l with
  | nil => rfl
  | cons a as ih =>
    show (if a.taskId = id then f a else a) :: mapTask id f as = a :: as
    rw [if_neg (h a (List.mem_cons_self _ _)), ih (fun t ht => h t (List.mem_cons_of_mem _ ht))]

lemma mapTask_append {id : Nat} {f : PgTask → PgTask} {l1 l2 : List PgTask} :
    mapTask id f (l1 ++ l2) = mapTask id f l1 ++ mapTask id f l2 := by
  rw [mapTask, mapTask, mapTask, List.map_append]

/-- The hash-hit branch of `CreateTask` as one store transformation: the
new row is created `done` and then both copyright columns are set to the
`json.Marshal` bytes of the single `Copyright{videos[0].VideoID, 1}`
value. -/
lemma createTask_fast_eq {st : Store} {hash vn vf af : String} {v : OrigVideo}
    {rest : List OrigVideo} (hget : getOrigVideosByHash st hash = v :: rest)
    (hbound : ∀ t ∈ st.tasks, t.taskId < st.nextId) :
    (createTask st hash vn vf af).1 = { st with tasks := st.tasks ++ [{ taskId := st.nextId, videoName := vn, audioFile := af, videoFile := vf, previewId := "aaa", status := PgStatus.done, audioCopyright := Blob.copyrightJson ⟨v.videoId, 1⟩, videoCopyright := Blob.copyrightJson ⟨v.videoId, 1⟩, audioWritten := true, videoWritten := true }], nextId := st.nextId + 1 } := by
  rw [createTask, hget]
  show updateTaskAudioCopyright (updateTaskVideoCopyright { st with tasks := st.tasks ++ [{ taskId := st.nextId, videoName := vn, audioFile := af, videoFile := vf, previewId := "aaa", status := PgStatus.done, audioCopyright := Blob.empty, videoCopyright := Blob.empty, audioWritten := false, videoWritten := false }], nextId := st.nextId + 1 } st.nextId (Blob.copyrightJson ⟨v.videoId, 1⟩)) st.nextId (Blob.copyrightJson ⟨v.videoId, 1⟩) = _
  rw [updateTaskVideoCopyright, updateTaskAudioCopyright]
  show ({ st with tasks := mapTask st.nextId (setAudioCopyright (Blob.copyrightJson ⟨v.videoId, 1⟩)) (mapTask st.nextId (setVideoCopyright (Blob.copyrightJson ⟨v.videoId, 1⟩)) (st.tasks ++ [{ taskId := st.nextId, videoName := vn, audioFile := af, videoFile := vf, previewId := "aaa", status := PgStatus.done, audioCopyright := Blob.empty, videoCopyright := Blob.empty, audioWritten := false, videoWritten := false }])), nextId := st.nextId + 1 } : Store) = _
  rw [mapTask_comp_fun (setAudioCopyright (Blob.copyrightJson ⟨v.videoId, 1⟩)) (setVideoCopyright (Blob.copyrightJson ⟨v.videoId, 1⟩)) _ (fun t => rfl)]
  rw [mapTask_append]
  rw [mapTask_eq_self (fun t ht => Nat.ne_of_lt (hbound t ht))]
  show ({ st with tasks := st.tasks ++ [if ({ taskId := st.nextId, videoName := vn, audioFile := af, videoFile := vf, previewId := "aaa", status := PgStatus.done, audioCopyright := Blob.empty, videoCopyright := Blob.empty, audioWritten := false, videoWritten := false } : PgTask).taskId = st.nextId then setAudioCopyright (Blob.copyrightJson ⟨v.videoId, 1⟩) (setVideoCopyright (Blob.copyrightJson ⟨v.videoId, 1⟩) { taskId := st.nextId, videoName := vn, audioFile := af, videoFile := vf, previewId := "aaa", status := PgStatus.done, audioCopyright := Blob.empty, videoCopyright := Blob.empty, audioWritten := false, videoWritten := false }) else { taskId := st.nextId, videoName := vn, audioFile := af, videoFile := vf, previewId := "aaa", status := PgStatus.done, audioCopyright := Blob.empty, videoCopyright := Blob.empty, audioWritten := false, videoWritten := false }], nextId := st.nextId + 1 } : Store) = _
  rw [if_pos rfl]
  rfl

lemma storeInv_createTask {st : Store} (h : StoreInv st) (hash vn vf af : String) :
    StoreInv (createTask st hash vn vf af).1 := by
  cases hget : getOrigVideosByHash st hash with
  | nil =>
    rw [createTask, hget]
    show StoreInv { st with tasks := st.tasks ++ [{ taskId := st.nextId, videoName := vn, audioFile := af, videoFile := vf, previewId := "aaa", status := PgStatus.inProgress, audioCopyright := Blob.empty, videoCopyright := Blob.empty, audioWritten := false, videoWritten := false }], nextId := st.nextId + 1 }
    refine storeInv_tasks_append h _ rfl ⟨?_, ?_, ?_⟩
    · intro hdone
      exact PgStatus.noConfusion hdone
    · intro hvv
      exact Bool.noConfusion hvv
    · intro haa
      exact Bool.noConfusion haa
  | cons v rest =>
    rw [createTask_fast_eq hget h.1]
    exact storeInv_tasks_append h _ rfl
      ⟨fun _ => ⟨rfl, rfl⟩, fun _ => rfl, fun _ => rfl⟩

lemma reachable_storeInv {ov : List OrigVideo} {st : Store}
    (h : Reachable ov st) : StoreInv st := by
  induction h with
  | init =>
    refine ⟨?_, List.Pairwise.nil, ?_⟩
    · intro t ht
      cases ht
    · intro t ht
      cases ht
  | create hash vn vf af hr ih =>
    exact storeInv_createTask ih hash vn vf af
  | dispatch id hr ih =>
    rename_i st2
    have h1 : StoreInv (updateTaskStatus st2 id PgStatus.inProgress) := by
      rw [updateTaskStatus]
      apply storeInv_mapTask ih id (setStatus PgStatus.inProgress) (fun t => rfl)
      intro t ht htid hrow
      exact ⟨fun hdone => PgStatus.noConfusion hdone,
        fun hvv => hrow.2.1 hvv, fun haa => hrow.2.2 haa⟩
    exact h1
  | videoMsg b hr ih =>
    cases hu : unmarshalKafkaResponse b with
    | none =>
      rw [collectorStep_drop hu]
      exact ih
    | some k =>
      rw [collectorStep_video_eq hu]
      apply storeInv_checkTaskDone
      apply storeInv_mapTask ih k.taskId (setVideoCopyright b) (fun t => rfl)
      intro t ht htid hrow
      refine ⟨?_, fun _ => rfl, fun haa => hrow.2.2 haa⟩
      intro hdone
      exact ⟨rfl, (hrow.1 hdone).2⟩
  | audioMsg b hr ih =>
    cases hu : unmarshalKafkaResponse b with
    | none =>
      rw [collectorStep_drop hu]
      exact ih
    | some k =>
      rw [collectorStep_audio_eq hu]
      apply storeInv_checkTaskDone
      apply storeInv_mapTask ih k.taskId (setAudioCopyright b) (fun t => rfl)
      intro t ht htid hrow
      refine ⟨?_, fun hvv => hrow.2.1 hvv, fun _ => rfl⟩
      intro hdone
      exact ⟨(hrow.1 hdone).1, rfl⟩

/-- C4: in every store reachable by `CreateTask` (either path, taken as
one step), the slow path's asynchronous fan-out, and the two collector
update-then-check steps, a task whose status is `done` has had both its
video and its audio copyright column written at least once (the history
flags `videoWritten` / `audioWritten` record the column assignments). -/
theorem done_implies_written :
    ∀ (ov : List OrigVideo) (st : Store), Reachable ov st →
      ∀ t ∈ st.tasks, t.status = PgStatus.done →
        t.videoWritten = true ∧ t.audioWritten = true := by
  intro ov st h t ht hdone
  exact ((reachable_storeInv h).2.2 t ht).1 hdone

/-- Witness for C4: the store after a hash-hit `CreateTask` contains a
`done` task, and the theorem yields its two written flags. -/
theorem done_implies_written_witness :
    (createTask (init0 [⟨"ref1", "h"⟩]) "h" "vid" "v.mp4" "a.wav").1.tasks.headI.videoWritten = true ∧
    (createTask (init0 [⟨"ref1", "h"⟩]) "h" "vid" "v.mp4" "a.wav").1.tasks.headI.audioWritten = true :=
  done_implies_written [⟨"ref1", "h"⟩] _ (Reachable.create "h" "vid" "v.mp4" "a.wav" Reachable.init)
    _ (by with_unfolding_all decide) (by with_unfolding_all rfl)

/-! ### The fast path's stored shape (C1), pagination (C8), and the
converter's error behaviour (C10) -/

/-- C1 (code bug): on a hash hit, `CreateTask` does create the task
directly in `done` state and publishes no analysis request — but the bytes
it stores in both copyright columns are `json.Marshal` of a *single*
`model.Copyright` value, which `taskToModel` then unmarshals as a
`KafkaResponse` whose unknown keys are ignored; `GetTask` therefore
reports *empty* candidate lists instead of the synthetic match
`[{name: "ref1", probability: 1}]`.  The task row itself is `done` and
holds the wrongly-shaped blob. -/
theorem fastpath_stores_wrong_shape :
    getTask (createTask (init0 [⟨"ref1", "h"⟩]) "h" "vid" "v.mp4" "a.wav").1
        (createTask (init0 [⟨"ref1", "h"⟩]) "h" "vid" "v.mp4" "a.wav").2 =
      Except.ok { taskId := 1, status := ModelStatus.done, videoCopyright := [], audioCopyright := [] } ∧
    findTask (createTask (init0 [⟨"ref1", "h"⟩]) "h" "vid" "v.mp4" "a.wav").1.tasks 1 =
      some { taskId := 1, videoName := "vid", audioFile := "a.wav", videoFile := "v.mp4", previewId := "aaa", status := PgStatus.done, audioCopyright := Blob.copyrightJson ⟨"ref1", 1⟩, videoCopyright := Blob.copyrightJson ⟨"ref1", 1⟩, audioWritten := true, videoWritten := true } ∧
    (createTask (init0 [⟨"ref1", "h"⟩]) "h" "vid" "v.mp4" "a.wav").1.published = [] ∧
    unmarshalKafkaResponse (Blob.copyrightJson ⟨"ref1", 1⟩) = some ⟨0, []⟩ := by
  refine ⟨?_, ?_, rfl, rfl⟩
  · with_unfolding_all rfl
  · with_unfolding_all rfl

lemma taskSliceToModel_ok :
    ∀ l : List PgTask, ∃ ms, taskSliceToModel l = Except.ok ms ∧ ms.length = l.length := by
  intro l
  induction l with
  | nil => exact ⟨[], rfl, rfl⟩
  | cons t ts ih =>
    rcases ih with ⟨ms, hms, hlen⟩
    have hstep : taskSliceToModel (t :: ts) =
        (match taskSliceToModel ts with
          | Except.error e => Except.error e
          | Except.ok ms2 => Except.ok ({ taskId := t.taskId, status := statusToModel t.status, videoCopyright := ((unmarshalKafkaResponse t.videoCopyright).getD ⟨0, []⟩).copy, audioCopyright := ((unmarshalKafkaResponse t.audioCopyright).getD ⟨0, []⟩).copy } :: ms2) : Except String (List ModelTask)) := rfl
    refine ⟨{ taskId := t.taskId, status := statusToModel t.status, videoCopyright := ((unmarshalKafkaResponse t.videoCopyright).getD ⟨0, []⟩).copy, audioCopyright := ((unmarshalKafkaResponse t.audioCopyright).getD ⟨0, []⟩).copy } :: ms, ?_, ?_⟩
    · rw [hstep, hms]
    · show ms.length + 1 = ts.length + 1
      rw [hlen]

/-- Counterexample to C8 as stated: the claim quantifies over **every**
`limit` and `offset`, but the controller truncates its `uint64` arguments
with `int32(...)`.  For `limit = 2^31` the truncation is the negative
value `-2^31`; Postgres rejects the negative `LIMIT`, and `GetTasks`
returns an error instead of a page and a count — already on the empty
store. -/
theorem getTasks_pagination_counterexample :
    int32Of (2 ^ 31) = -(2 ^ 31) ∧
    getTasks (init0 []) (2 ^ 31) 0 = Except.error "get tasks failed" ∧
    (getTasks (init0 []) (2 ^ 31) 0).isOk = false := by
  refine ⟨?_, ?_, ?_⟩ <;> with_unfolding_all rfl

/-- C8 (amended): when neither `int32` truncation of the two `uint64`
arguments is negative — in particular for every `limit` and `offset` below
`2^31` — `GetTasks` returns the `ORDER BY task_id ASC` page of at most
`int32(limit) ≤ limit` tasks together with the store's unfiltered task
count, and performs no writes (it is a pure function of the store); when
either truncation is negative (low 32 bits in `[2^31, 2^32)`), Postgres
rejects the negative `LIMIT`/`OFFSET` and `GetTasks` returns an error
instead. -/
theorem getTasks_pagination :
    ∀ (st : Store) (limit offset : Nat),
      (limit % 2 ^ 32 < 2 ^ 31 → offset % 2 ^ 32 < 2 ^ 31 →
        ∃ ts, getTasks st limit offset = Except.ok (ts, getTasksCount st) ∧
          ts.length ≤ limit ∧ getTasksCount st = st.tasks.length) ∧
      (2 ^ 31 ≤ limit % 2 ^ 32 ∨ 2 ^ 31 ≤ offset % 2 ^ 32 →
        getTasks st limit offset = Except.error "get tasks failed") := by
  intro st limit offset
  constructor
  · intro hl ho
    have hli : int32Of limit = ((limit % 2 ^ 32 : Nat) : Int) := by
      rw [int32Of, if_pos hl]
    have hoi : int32Of offset = ((offset % 2 ^ 32 : Nat) : Int) := by
      rw [int32Of, if_pos ho]
    have hcond : ¬ (int32Of limit < 0 ∨ int32Of offset < 0) := by
      rw [hli, hoi]
      push_neg
      exact ⟨Int.ofNat_nonneg _, Int.ofNat_nonneg _⟩
    have hh := taskSliceToModel_ok
      (((sortBy (fun a b => decide (a.taskId < b.taskId)) st.tasks).drop
        (int32Of offset).toNat).take (int32Of limit).toNat)
    rcases hh with ⟨ms, hms, hlen⟩
    refine ⟨ms, ?_, ?_, rfl⟩
    · rw [getTasks, if_neg hcond, hms]
    · rw [hlen, List.length_take]
      have h1 : (int32Of limit).toNat ≤ limit := by
        rw [hli, Int.toNat_natCast]
        exact Nat.mod_le limit (2 ^ 32)
      exact le_trans (Nat.min_le_left _ _) h1
  · intro hneg
    have hcond : int32Of limit < 0 ∨ int32Of offset < 0 := by
      rcases hneg with h | h
      · left
        rw [int32Of, if_neg (by omega)]
        have h2 : limit % 2 ^ 32 < 2 ^ 32 := Nat.mod_lt _ (by norm_num)
        omega
      · right
        rw [int32Of, if_neg (by omega)]
        have h2 : offset % 2 ^ 32 < 2 ^ 32 := Nat.mod_lt _ (by norm_num)
        omega
    rw [getTasks, if_pos hcond]

/-- Witness for C8 (amended): on the empty store, `limit = 2` and
`offset = 1` succeed with at most two rows and the total count, while
`limit = 2^31` wraps to a negative `int32` and errors. -/
theorem getTasks_pagination_witness :
    (∃ ts, getTasks (init0 []) 2 1 = Except.ok (ts, getTasksCount (init0 [])) ∧
      ts.length ≤ 2 ∧ getTasksCount (init0 []) = (init0 []).tasks.length) ∧
    getTasks (init0 []) (2 ^ 31) 0 = Except.error "get tasks failed" :=
  ⟨(getTasks_pagination (init0 []) 2 1).1 (by norm_num) (by norm_num),
   (getTasks_pagination (init0 []) (2 ^ 31) 0).2 (Or.inl (by norm_num))⟩

/-- C10: `taskToModel` never returns an error — a copyright column that
fails to unmarshal as a `KafkaResponse` is replaced by the zero value,
whose candidate list is empty — and `GetTask` succeeds exactly when the
store row exists. -/
theorem taskToModel_total :
    (∀ t : PgTask, (taskToModel t).isOk = true) ∧
    (∀ t : PgTask, unmarshalKafkaResponse t.videoCopyright = none →
      taskToModel t = Except.ok { taskId := t.taskId, status := statusToModel t.status, videoCopyright := [], audioCopyright := ((unmarshalKafkaResponse t.audioCopyright).getD ⟨0, []⟩).copy }) ∧
    (∀ t : PgTask, unmarshalKafkaResponse t.audioCopyright = none →
      taskToModel t = Except.ok { taskId := t.taskId, status := statusToModel t.status, videoCopyright := ((unmarshalKafkaResponse t.videoCopyright).getD ⟨0, []⟩).copy, audioCopyright := [] }) ∧
    (∀ (st : Store) (id : Nat), (getTask st id).isOk = (findTask st.tasks id).isSome) := by
  refine ⟨fun t => rfl, ?_, ?_, ?_⟩
  · intro t hv
    rw [taskToModel, hv]
    rfl
  · intro t ha
    rw [taskToModel, ha]
    rfl
  · intro st id
    cases hf : findTask st.tasks id with
    | none =>
      rw [getTask, hf]
      rfl
    | some t =>
      rw [getTask, hf]
      rfl

/-- Witness for C10: a row whose two copyright columns hold bytes that are
not valid `KafkaResponse` JSON converts without error, to empty candidate
lists. -/
theorem taskToModel_total_witness :
    ((taskToModel { taskId := 7, videoName := "n", audioFile := "a", videoFile := "v", previewId := "aaa", status := PgStatus.inProgress, audioCopyright := Blob.malformed "oops", videoCopyright := Blob.malformed "not json", audioWritten := true, videoWritten := true }).isOk = true) ∧
    taskToModel { taskId := 7, videoName := "n", audioFile := "a", videoFile := "v", previewId := "aaa", status := PgStatus.inProgress, audioCopyright := Blob.malformed "oops", videoCopyright := Blob.malformed "not json", audioWritten := true, videoWritten := true } =
      Except.ok { taskId := 7, status := ModelStatus.inProgress, videoCopyright := [], audioCopyright := [] } :=
  ⟨taskToModel_total.1 _, taskToModel_total.2.1 _ rfl⟩
